import Mathlib

/-!
# rest/httpx: request decoding pipeline

A shallow embedding of `rest/httpx/requests.go` and `rest/httpx/util.go`.

Go strings are modelled as sequences of Unicode code points (`List Char`), which
covers every string that is valid UTF-8; request bodies are sequences of bytes
(`List Nat`).  Go maps are association lists with pairwise distinct keys in which a
store replaces the binding of an existing key in place and appends a new key.
-/

namespace Httpx

/-! ## Go strings and the `strings` functions used by the package -/

/-- A Go string, as its sequence of code points. -/
abbrev GoString := List Char

/-- The function `strings.HasPrefix`. -/
def HasPrefix : GoString → GoString → Bool
  | _, [] => true
  | [], _ :: _ => false
  | c :: s, d :: p => c == d && HasPrefix s p

/-- The function `strings.Index`: index of the first instance of `substr` in `s`,
or `-1` when there is none.  Positions count code points; they are only used to cut
the same string with `take` and `drop`. -/
def Index : GoString → GoString → Int
  | [], substr => if substr.isEmpty then 0 else -1
  | c :: s, substr =>
    if HasPrefix (c :: s) substr then 0
    else
      let i := Index s substr
      if i < 0 then -1 else i + 1

/-- The function `strings.Contains`: `Index(s, substr) >= 0`. -/
def Contains (s substr : GoString) : Bool :=
  decide (Index s substr ≥ 0)

/-- General loop of `strings.Count`: repeatedly find the next instance and skip it.
The fuel bounds the number of iterations by the length of the string. -/
def countLoop (substr : GoString) : Nat → GoString → Nat → Nat
  | 0, _, n => n
  | fuel + 1, s, n =>
    let i := Index s substr
    if i = -1 then n else countLoop substr fuel (s.drop (i.toNat + substr.length)) (n + 1)

/-- The function `strings.Count`: number of non-overlapping instances of `substr`. -/
def Count (s substr : GoString) : Nat :=
  match substr with
  | [] => s.length + 1
  | [c] => s.count c
  | _ => countLoop substr (s.length + 1) s 0

/-- The helper `strings.explode`: split into at most `n` single-character strings,
the last one holding the rest. -/
def explodeLoop : Nat → GoString → List GoString
  | 0, s => [s]
  | _ + 1, [] => [[]]
  | k + 1, c :: s => [c] :: explodeLoop k s

/-- The helper `strings.explode`. -/
def explode (s : GoString) (n : Int) : List GoString :=
  let l : Int := s.length
  let n := if n < 0 ∨ n > l then l else n
  if n > 0 then explodeLoop (n.toNat - 1) s else []

/-- Loop of `strings.genSplit` with `sepSave = 0`: at most `k` cuts. -/
def genSplitLoop (sep : GoString) : Nat → GoString → List GoString
  | 0, s => [s]
  | k + 1, s =>
    let m := Index s sep
    if m < 0 then [s]
    else s.take m.toNat :: genSplitLoop sep k (s.drop (m.toNat + sep.length))

/-- The function `strings.genSplit(s, sep, 0, n)`.  The bound `len(s) + 1` on the
number of pieces is taken in code points; a string never has more pieces than
that, so the bound does not change a result. -/
def genSplit (s sep : GoString) (n : Int) : List GoString :=
  if n = 0 then []
  else if sep.isEmpty then explode s n
  else
    let n : Int := if n < 0 then (Count s sep : Int) + 1 else n
    let n : Int := if n > (s.length : Int) + 1 then (s.length : Int) + 1 else n
    genSplitLoop sep (n - 1).toNat s

/-- The function `strings.Split`. -/
def Split (s sep : GoString) : List GoString := genSplit s sep (-1)

/-- The function `strings.SplitN`. -/
def SplitN (s sep : GoString) (n : Int) : List GoString := genSplit s sep n

/-- The predicate `unicode.IsSpace`: the Latin-1 spaces and the code points with the
Unicode White_Space property. -/
def IsSpace (c : Char) : Bool :=
  let r := c.toNat
  if r ≤ 0xFF then
    r == 0x09 || r == 0x0A || r == 0x0B || r == 0x0C || r == 0x20 || r == 0x0D
      || r == 0x85 || r == 0xA0
  else
    r == 0x1680 || (0x2000 ≤ r && r ≤ 0x200A) || r == 0x2028 || r == 0x2029
      || r == 0x202F || r == 0x205F || r == 0x3000

/-- The function `strings.TrimSpace`: drop leading and trailing white space. -/
def TrimSpace (s : GoString) : GoString :=
  ((s.dropWhile IsSpace).reverse.dropWhile IsSpace).reverse

/-! ## Go maps -/

/-- A Go map with string keys. -/
abbrev GoMap (V : Type) := List (GoString × V)

/-- Read `m[k]`, with `none` for an absent key. -/
def GoMap.lookup {V : Type} : GoMap V → GoString → Option V
  | [], _ => none
  | (k', v) :: t, k => if k' = k then some v else GoMap.lookup t k

/-- The assignment `m[k] = v`. -/
def GoMap.store {V : Type} : GoMap V → GoString → V → GoMap V
  | [], k, v => [(k, v)]
  | (k', v') :: t, k, v => if k' = k then (k, v) :: t else (k', v') :: GoMap.store t k v

/-- The keys of a map. -/
def GoMap.keys {V : Type} (m : GoMap V) : List GoString := m.map Prod.fst

/-! ## requests.go: constants and `ParseHeader` -/

/-- The constant `separator`. -/
def separator : GoString := [';']

/-- The constant `tokensInAttribute`. -/
def tokensInAttribute : Nat := 2

/-- The constant `maxMemory`, 32 MiB. -/
def maxMemory : Nat := 32 <<< 20

/-- The constant `maxBodyLen`, 8 MiB. -/
def maxBodyLen : Nat := 8 <<< 20

/-- One iteration of the loop of `ParseHeader`. -/
def parseHeaderStep (ret : GoMap GoString) (field : GoString) : GoMap GoString :=
  let field := TrimSpace field
  if field.length = 0 then ret
  else
    let kv := SplitN field ['='] tokensInAttribute
    if kv.length ≠ tokensInAttribute then ret
    else ret.store (kv.getD 0 []) (kv.getD 1 [])

/-- The function `ParseHeader`: parse a header value into a map. -/
def ParseHeader (headerValue : GoString) : GoMap GoString :=
  let fields := Split headerValue separator
  fields.foldl parseHeaderStep []

/-! ### Reference for `ParseHeader`, following the specification text -/

/-- Split a string on every occurrence of a character. -/
def splitOnChar (c : Char) : GoString → List GoString
  | [] => [[]]
  | x :: xs =>
    if x = c then [] :: splitOnChar c xs
    else
      match splitOnChar c xs with
      | [] => [[x]]
      | h :: t => (x :: h) :: t

/-- The text of a segment before its first `=`. -/
def beforeFirstEq (seg : GoString) : GoString := seg.takeWhile (fun c => c != '=')

/-- The text of a segment after its first `=`. -/
def afterFirstEq (seg : GoString) : GoString := (seg.dropWhile (fun c => c != '=')).drop 1

/-- Reference of the specification: split on `;`, trim each segment, drop the empty
segments and those without `=`, then bind left to right. -/
def ParseHeaderRef (raw : GoString) : GoMap GoString :=
  let segments := (splitOnChar ';' raw).map TrimSpace
  let segments := segments.filter (fun seg => seg ≠ [])
  let segments := segments.filter (fun seg => '=' ∈ seg)
  segments.foldl (fun m seg => m.store (beforeFirstEq seg) (afterFirstEq seg)) []

/-! ## The request, the collaborators and the state of a call -/

/-- The part of `*http.Request` that the package reads or updates. -/
structure Request where
  /-- The field `r.ContentLength` (`-1` when unknown). -/
  ContentLength : Int
  /-- The field `r.Header`, its keys in canonical form. -/
  Header : GoMap (List GoString)
  /-- The field `r.URL.RawQuery`. -/
  RawQuery : GoString
  /-- The bytes that `r.Body` yields when read to its end. -/
  Body : List Nat
  /-- The field `r.Form`, filled by the form parsing of net/http. -/
  Form : GoMap (List GoString)
  /-- The result of `pathvar.Vars(r)`. -/
  Vars : GoMap GoString

/-- The method `http.Header.Get` at a key in canonical form: the first value
associated with the key, or the empty string. -/
def HeaderGet (h : GoMap (List GoString)) (key : GoString) : GoString :=
  match h.lookup key with
  | some (v :: _) => v
  | _ => []

/-- The method `url.Values.Get`: the first value associated with the key, or the
empty string. -/
def ValuesGet (v : GoMap (List GoString)) (key : GoString) : GoString :=
  match v.lookup key with
  | some (x :: _) => x
  | _ => []

/-- The reader `io.LimitReader(body, n)`: it yields the first `n` bytes and then
reports the end of the stream. -/
def LimitReader (body : List Nat) (n : Nat) : List Nat := body.take n

/-- Modelled from the spec: the constant `header.ContentType` of rest/internal/header,
which is not under src/; the spec names the `Content-Type` header. -/
def ContentType : GoString := "Content-Type".toList

/-- Modelled from the spec: the constant `header.ApplicationJson` of
rest/internal/header, which is not under src/; the spec names the token
`application/json`. -/
def ApplicationJson : GoString := "application/json".toList

/-- The constant `formKey`. -/
def formKey : GoString := "form".toList

/-- The constant `queryKey`. -/
def queryKey : GoString := "query".toList

/-- The constant `pathKey`. -/
def pathKey : GoString := "path".toList

/-- The functions the package calls and does not define: the unmarshaling engine of
core/mapping, the header decoder of rest/internal/encoding and the parsers of
net/http and net/url.  `T` is the record the target points to, `E` the type of
non-nil errors.  The theorems about the code are stated for all of them. -/
structure Collaborators (T E : Type) where
  /-- The call `Unmarshal(m, v)` on the unmarshaler of a tag key, with the options
  taken from the request. -/
  Unmarshal : GoString → Request → GoMap GoString → T → T × Option E
  /-- The function `encoding.ParseRequestHeaders(r, v)`. -/
  ParseRequestHeaders : Request → T → T × Option E
  /-- The function `mapping.UnmarshalJsonReader(reader, v, opts...)`, given the bytes
  the reader yields. -/
  UnmarshalJsonReader : List Nat → Request → T → T × Option E
  /-- The function `mapping.UnmarshalJsonMap(nil, v, opts...)`. -/
  UnmarshalJsonMap : Request → T → T × Option E
  /-- The function `url.ParseQuery`. -/
  ParseQuery : GoString → GoMap (List GoString) × Option E
  /-- The method `r.ParseForm()`, which updates the request. -/
  ParseForm : Request → Request × Option E
  /-- The method `r.ParseMultipartForm(maxMemory)`, which updates the request. -/
  ParseMultipartForm : Nat → Request → Request × Option E
  /-- The sentinel `http.ErrNotMultipart`. -/
  ErrNotMultipart : E

/-- A non-nil value of the interface `Validator`: its dynamic type, a name that
identifies the value in traces, and its method `Validate(r, data)`.  The method
receives the pointer to the target, so besides the error or nil it yields the target
as it leaves it. -/
structure Validator (T E : Type) where
  /-- The concrete (dynamic) type of the interface value. -/
  dynType : Nat
  /-- An identifier of the value, recorded when the value is invoked. -/
  name : Nat
  /-- The method `Validate(r, data)`: the target as the method leaves it and the
  error or nil. -/
  Validate : Request → T → T × Option E

/-- Calls recorded while a request is parsed. -/
inductive Event where
  | parsePath
  | parseQuery
  | parseForm
  | parseHeaders
  | parseJsonBody
  | selfValidate
  | validate (name : Nat)
  deriving DecidableEq, Repr

/-- What a call of the package reads and updates: the request `r`, the record `v`
points to, the package variable `validator` (an `atomic.Value`, `none` until the
first store) and the calls recorded so far. -/
structure State (T E : Type) where
  req : Request
  target : T
  validator : Option (Validator T E)
  trace : List Event

/-- Record a call. -/
def State.log {T E : Type} (s : State T E) (e : Event) : State T E :=
  { s with trace := s.trace ++ [e] }

/-! ## util.go -/

/-- The loop shared by `GetQueryValues` and `GetFormValues`: for each name of
`values`, bind the name to `values.Get(name)` if that is non-empty and to the empty
string otherwise. -/
def collectParams (values : GoMap (List GoString)) : GoMap GoString :=
  values.keys.foldl
    (fun params name =>
      let value := ValuesGet values name
      if value.length > 0 then params.store name value else params.store name [])
    []

/-- The function `GetFormValues`: the updated request and the pair of the map (or
nil) and the error (or nil). -/
def GetFormValues {T E : Type} [DecidableEq E] (c : Collaborators T E) (r : Request) :
    Request × Option (GoMap GoString) × Option E :=
  match c.ParseForm r with
  | (r, some err) => (r, none, some err)
  | (r, none) =>
    match c.ParseMultipartForm maxMemory r with
    | (r, some err) =>
      if err ≠ c.ErrNotMultipart then (r, none, some err)
      else (r, some (collectParams r.Form), none)
    | (r, none) => (r, some (collectParams r.Form), none)

/-- The function `GetQueryValues`: the pair of the map (or nil) and the error (or
nil). -/
def GetQueryValues {T E : Type} (c : Collaborators T E) (r : Request) :
    Option (GoMap GoString) × Option E :=
  match c.ParseQuery r.RawQuery with
  | (_, some err) => (none, some err)
  | (queryValues, none) => (some (collectParams queryValues), none)

/-! ## requests.go -/

/-- The function `withJsonBody`. -/
def withJsonBody (r : Request) : Bool :=
  decide (r.ContentLength > 0) && Contains (HeaderGet r.Header ContentType) ApplicationJson

/-- The function `ParseHeaders`. -/
def ParseHeaders {T E : Type} (c : Collaborators T E) (s : State T E) :
    State T E × Option E :=
  let s := s.log Event.parseHeaders
  let (t, err) := c.ParseRequestHeaders s.req s.target
  ({ s with target := t }, err)

/-- The function `ParseQuery`.  A nil map is read as the empty map. -/
def ParseQuery {T E : Type} (c : Collaborators T E) (s : State T E) :
    State T E × Option E :=
  let s := s.log Event.parseQuery
  match GetQueryValues c s.req with
  | (_, some err) => (s, some err)
  | (params, none) =>
    let (t, err) := c.Unmarshal queryKey s.req (params.getD []) s.target
    ({ s with target := t }, err)

/-- The function `ParseForm`.  A nil map is read as the empty map. -/
def ParseForm {T E : Type} [DecidableEq E] (c : Collaborators T E) (s : State T E) :
    State T E × Option E :=
  let s := s.log Event.parseForm
  match GetFormValues c s.req with
  | (r, _, some err) => ({ s with req := r }, some err)
  | (r, params, none) =>
    let (t, err) := c.Unmarshal formKey r (params.getD []) s.target
    ({ s with req := r, target := t }, err)

/-- The function `ParseJsonBody`. -/
def ParseJsonBody {T E : Type} (c : Collaborators T E) (s : State T E) :
    State T E × Option E :=
  let s := s.log Event.parseJsonBody
  if withJsonBody s.req then
    let reader := LimitReader s.req.Body maxBodyLen
    let (t, err) := c.UnmarshalJsonReader reader s.req s.target
    ({ s with target := t }, err)
  else
    let (t, err) := c.UnmarshalJsonMap s.req s.target
    ({ s with target := t }, err)

/-- The function `ParsePath`: copy the path variables into a fresh map and
unmarshal it. -/
def ParsePath {T E : Type} (c : Collaborators T E) (s : State T E) :
    State T E × Option E :=
  let s := s.log Event.parsePath
  let vars := s.req.Vars
  let m : GoMap GoString := vars.foldl (fun m kv => m.store kv.1 kv.2) []
  let (t, err) := c.Unmarshal pathKey s.req m s.target
  ({ s with target := t }, err)

/-- The function `Parse(r, v)`.  `valid` is the outcome of the type assertion
`v.(validation.Validator)`: the method `Validate()` of the target when its dynamic
type has one, `none` otherwise.  The method runs on the target itself: it yields the
target as it leaves it and the error or nil. -/
def Parse {T E : Type} [DecidableEq E] (c : Collaborators T E)
    (valid : Option (T → T × Option E)) (s : State T E) : State T E × Option E :=
  match ParsePath c s with
  | (s, some err) => (s, some err)
  | (s, none) =>
    match ParseQuery c s with
    | (s, some err) => (s, some err)
    | (s, none) =>
      match ParseForm c s with
      | (s, some err) => (s, some err)
      | (s, none) =>
        match ParseHeaders c s with
        | (s, some err) => (s, some err)
        | (s, none) =>
          match ParseJsonBody c s with
          | (s, some err) => (s, some err)
          | (s, none) =>
            match valid with
            | some validate =>
              ({ s.log Event.selfValidate with target := (validate s.target).1 },
                (validate s.target).2)
            | none =>
              match s.validator with
              | some val =>
                ({ s.log (Event.validate val.name) with
                    target := (val.Validate s.req s.target).1 },
                  (val.Validate s.req s.target).2)
              | none => (s, none)

/-- A run-time panic of Go, with its message. -/
structure GoPanic where
  message : String
  deriving DecidableEq, Repr

/-- The method `(*atomic.Value).Store`: it panics on a nil interface value and on a
value whose concrete type differs from the type of the value stored first;
otherwise the value replaces the stored one. -/
def AtomicValueStore {T E : Type} (cur : Option (Validator T E))
    (val : Option (Validator T E)) : Except GoPanic (Option (Validator T E)) :=
  match val with
  | none => Except.error ⟨"sync/atomic: store of nil value into Value"⟩
  | some v =>
    match cur with
    | none => Except.ok (some v)
    | some old =>
      if old.dynType ≠ v.dynType then
        Except.error ⟨"sync/atomic: store of inconsistently typed value into Value"⟩
      else Except.ok (some v)

/-- The function `SetValidator(val)`: `validator.Store(val)`.  The argument is
`none` for the nil interface value. -/
def SetValidator {T E : Type} (val : Option (Validator T E)) (s : State T E) :
    Except GoPanic (State T E) :=
  match AtomicValueStore s.validator val with
  | Except.error p => Except.error p
  | Except.ok a => Except.ok { s with validator := a }

/-! ## The JSON decoder, from the specification -/

/-- JSON white space: space, tab, line feed, carriage return. -/
def isJsonSpace (b : Nat) : Bool :=
  b == 0x20 || b == 0x09 || b == 0x0A || b == 0x0D

/-- Drop leading JSON white space. -/
def skipSpace (s : List Nat) : List Nat := s.dropWhile isJsonSpace

/-- A decimal digit. -/
def isDigit (b : Nat) : Bool := decide (0x30 ≤ b) && decide (b ≤ 0x39)

/-- A hexadecimal digit. -/
def isHexDigit (b : Nat) : Bool :=
  isDigit b || (decide (0x41 ≤ b) && decide (b ≤ 0x46)) ||
    (decide (0x61 ≤ b) && decide (b ≤ 0x66))

/-- The byte after a backslash in a one-byte escape: one of `"`, backslash, `/`,
`b`, `f`, `n`, `r`, `t`. -/
def isEscapeByte (b : Nat) : Bool :=
  b == 0x22 || b == 0x5C || b == 0x2F || b == 0x62 || b == 0x66 || b == 0x6E ||
    b == 0x72 || b == 0x74

/-- Where the scan of a string stands: in plain text, after a backslash, or with
`n` hexadecimal digits of a `\u` escape still to come. -/
inductive StringState where
  | plain
  | escape
  | hex (n : Nat)

/-- Scan a JSON string after its opening quote; the result is what follows the
closing quote. -/
def scanString : StringState → List Nat → Option (List Nat)
  | _, [] => none
  | StringState.plain, b :: r =>
    if b = 0x22 then some r
    else if b = 0x5C then scanString StringState.escape r
    else if b < 0x20 then none
    else scanString StringState.plain r
  | StringState.escape, b :: r =>
    if b = 0x75 then scanString (StringState.hex 4) r
    else if isEscapeByte b then scanString StringState.plain r
    else none
  | StringState.hex n, b :: r =>
    if isHexDigit b then
      if n ≤ 1 then scanString StringState.plain r else scanString (StringState.hex (n - 1)) r
    else none

/-- Scan the optional exponent of a JSON number. -/
def scanExponent (s : List Nat) : Option (List Nat) :=
  match s with
  | [] => some []
  | e :: r =>
    if e = 0x65 ∨ e = 0x45 then
      let r := match r with
        | [] => []
        | g :: r1 => if g = 0x2B ∨ g = 0x2D then r1 else g :: r1
      match r with
      | [] => none
      | d :: r2 => if isDigit d then some (r2.dropWhile isDigit) else none
    else some (e :: r)

/-- Scan the optional fraction and exponent of a JSON number. -/
def scanFraction (s : List Nat) : Option (List Nat) :=
  match s with
  | [] => some []
  | p :: r =>
    if p = 0x2E then
      match r with
      | [] => none
      | d :: r1 => if isDigit d then scanExponent (r1.dropWhile isDigit) else none
    else scanExponent (p :: r)

/-- Scan a JSON number. -/
def scanNumber (s : List Nat) : Option (List Nat) :=
  let s := match s with
    | [] => []
    | m :: r => if m = 0x2D then r else m :: r
  match s with
  | [] => none
  | d :: r =>
    if d = 0x30 then scanFraction r
    else if isDigit d then scanFraction (r.dropWhile isDigit)
    else none

/-- Remove a given prefix, if the input starts with it. -/
def stripBytes : List Nat → List Nat → Option (List Nat)
  | [], s => some s
  | _ :: _, [] => none
  | p :: ps, b :: s => if p = b then stripBytes ps s else none

/-- What the scan of a JSON text expects next: a value, the members of an object
(from a key on) or the elements of an array (from a value on). -/
inductive ScanMode where
  | value
  | members
  | elements

/-- Scan JSON according to the grammar of RFC 8259; the result is what follows the
scanned text.  The fuel bounds the nesting and the number of members in a row. -/
def scanJson : Nat → ScanMode → List Nat → Option (List Nat)
  | 0, _, _ => none
  | fuel + 1, ScanMode.value, s =>
    match s with
    | [] => none
    | b :: r =>
      if b = 0x7B then
        match skipSpace r with
        | [] => none
        | b2 :: r2 => if b2 = 0x7D then some r2 else scanJson fuel ScanMode.members (b2 :: r2)
      else if b = 0x5B then
        match skipSpace r with
        | [] => none
        | b2 :: r2 => if b2 = 0x5D then some r2 else scanJson fuel ScanMode.elements (b2 :: r2)
      else if b = 0x22 then scanString StringState.plain r
      else if b = 0x74 then stripBytes [0x72, 0x75, 0x65] r
      else if b = 0x66 then stripBytes [0x61, 0x6C, 0x73, 0x65] r
      else if b = 0x6E then stripBytes [0x75, 0x6C, 0x6C] r
      else scanNumber (b :: r)
  | fuel + 1, ScanMode.members, s =>
    match s with
    | [] => none
    | b :: r =>
      if b = 0x22 then
        match scanString StringState.plain r with
        | none => none
        | some r1 =>
          match skipSpace r1 with
          | [] => none
          | b2 :: r2 =>
            if b2 = 0x3A then
              match scanJson fuel ScanMode.value (skipSpace r2) with
              | none => none
              | some r3 =>
                match skipSpace r3 with
                | [] => none
                | b4 :: r4 =>
                  if b4 = 0x2C then scanJson fuel ScanMode.members (skipSpace r4)
                  else if b4 = 0x7D then some r4
                  else none
            else none
      else none
  | fuel + 1, ScanMode.elements, s =>
    match scanJson fuel ScanMode.value s with
    | none => none
    | some r3 =>
      match skipSpace r3 with
      | [] => none
      | b4 :: r4 =>
        if b4 = 0x2C then scanJson fuel ScanMode.elements (skipSpace r4)
        else if b4 = 0x5D then some r4
        else none

/-- The first JSON value of a byte stream, as a streaming decoder reads it: leading
white space is skipped, the value is read to its end, and whatever follows it is
left unread.  The result is `none` when the stream does not begin with a complete
value. -/
def firstJsonValue (data : List Nat) : Option (List Nat) :=
  match scanJson (data.length + 1) ScanMode.value (skipSpace data) with
  | none => none
  | some rest => some ((skipSpace data).take ((skipSpace data).length - rest.length))

/-- Modelled from the spec: the streaming JSON path of the generic unmarshaling
engine (`mapping.UnmarshalJsonReader` of core/mapping, which is not under src/).  In
the words of the spec, malformed or incomplete JSON surfaces as a decode error; being
a streaming decoder, it reads the first JSON value of the stream and nothing after
it, and that value is decoded into the target by `populate`, the tag-driven part of
the engine. -/
def UnmarshalJsonReaderModel {T E : Type} (populate : List Nat → T → T × Option E)
    (malformed : E) (data : List Nat) (v : T) : T × Option E :=
  match firstJsonValue data with
  | none => (v, some malformed)
  | some value => populate value v

/-- Collaborators whose JSON reader is the decoder of the specification. -/
def withJsonDecoder {T E : Type} (base : Collaborators T E)
    (populate : List Nat → T → T × Option E) (malformed : E) : Collaborators T E :=
  { base with
    UnmarshalJsonReader := fun data _ v => UnmarshalJsonReaderModel populate malformed data v }

/-! ## The unmarshaling engine, from the specification -/

/-- The binding of a field under one source tag: the name the field is bound to,
whether the tag marks the field optional, and the default value the tag gives. -/
structure Binding where
  name : GoString
  optional : Bool
  defaultValue : Option GoString
  deriving DecidableEq, Repr

/-- A field of a target shape: its bindings (tag key to binding) and its current
value. -/
structure Field where
  bindings : GoMap Binding
  value : GoString
  deriving DecidableEq, Repr

/-- A target shape: its fields in declaration order. -/
abbrev Shape := List Field

/-- Modelled from the spec: the tag key of JSON-body binding, used inside core/mapping,
which is not under src/. -/
def jsonKey : GoString := "json".toList

/-- Modelled from the spec: the tag key of header binding, used inside
rest/internal/encoding, which is not under src/. -/
def headerKey : GoString := "header".toList

/-- The merge of a map into one field.  A field that is not bound under the tag key
is left as it is.  A bound field takes the value the map supplies for its name;
without one it takes the default of the binding (default-value population); without
either it is left as it is when optional and reported as not set otherwise
(required-field validation). -/
def mergeField {E : Type} (notSet : GoString → E) (tagKey : GoString) (m : GoMap GoString)
    (f : Field) : Field × Option E :=
  match f.bindings.lookup tagKey with
  | none => (f, none)
  | some b =>
    match m.lookup b.name with
    | some v => ({ f with value := v }, none)
    | none =>
      match b.defaultValue with
      | some d => ({ f with value := d }, none)
      | none => if b.optional then (f, none) else (f, some (notSet b.name))

/-- Modelled from the spec: the operation `unmarshal(map, targetShape, tagKey)` of the
generic unmarshaling engine (core/mapping, which is not under src/), as the
map-merge-into-shape of the spec with the default-value population and the
required-field validation the spec says it runs, also on an empty map.  The fields
are merged in declaration order and the first field reported as not set ends the
merge with that error. -/
def mergeInto {E : Type} (notSet : GoString → E) (tagKey : GoString) (m : GoMap GoString) :
    Shape → Shape × Option E
  | [] => ([], none)
  | f :: fs =>
    match mergeField notSet tagKey m f with
    | (f1, some err) => (f1 :: fs, some err)
    | (f1, none) =>
      match mergeInto notSet tagKey m fs with
      | (fs1, err) => (f1 :: fs1, err)

/-- Modelled from the spec: collaborators whose decode operations are the merges of
the spec.  The header decoder merges the first value of each header; the JSON reader
merges the members that `decodeJson` reads from the body and reports `malformed`
when there are none to read; without a body the JSON stage merges the empty map.
The parsers of net/http and net/url are those of `base`. -/
def mergeEngine {E : Type} (base : Collaborators Shape E)
    (decodeJson : List Nat → Option (GoMap GoString)) (malformed : E)
    (notSet : GoString → E) : Collaborators Shape E :=
  { base with
    Unmarshal := fun tagKey _ m v => mergeInto notSet tagKey m v
    ParseRequestHeaders := fun r v => mergeInto notSet headerKey (collectParams r.Header) v
    UnmarshalJsonReader := fun data _ v =>
      match decodeJson data with
      | some m => mergeInto notSet jsonKey m v
      | none => (v, some malformed)
    UnmarshalJsonMap := fun _ v => mergeInto notSet jsonKey [] v }

/-! ## Sample inputs -/

/-- The bytes of an ASCII text. -/
def bytesOf (text : String) : List Nat := text.toList.map Char.toNat

/-- A small query parser: parameters separated by `&`, name and value separated by
the first `=`; a semicolon or a percent sign is reported as error `1`. -/
def sampleParseQuery (raw : GoString) : GoMap (List GoString) × Option Nat :=
  if ';' ∈ raw ∨ '%' ∈ raw then ([], some 1)
  else
    (((splitOnChar '&' raw).filter (fun seg => seg ≠ [])).foldl
      (fun (m : GoMap (List GoString)) seg =>
        m.store (beforeFirstEq seg)
          ((m.lookup (beforeFirstEq seg)).getD [] ++ [afterFirstEq seg]))
      [], none)

/-- Sample parsers of net/http and net/url: the query parser above, a form parser
that fills `r.Form` from the query string, and a multipart parser that always
reports the sentinel `0`, the body not being multipart. -/
def sampleBase : Collaborators Shape Nat where
  Unmarshal := fun _ _ _ v => (v, none)
  ParseRequestHeaders := fun _ v => (v, none)
  UnmarshalJsonReader := fun _ _ v => (v, none)
  UnmarshalJsonMap := fun _ v => (v, none)
  ParseQuery := sampleParseQuery
  ParseForm := fun r =>
    match sampleParseQuery r.RawQuery with
    | (_, some err) => (r, some err)
    | (values, none) => ({ r with Form := values }, none)
  ParseMultipartForm := fun _ r => (r, some 0)
  ErrNotMultipart := 0

/-- A sample JSON body. -/
def sampleBody : List Nat := bytesOf "\x7b\"name\":\"al\"\x7d"

/-- A sample reader of JSON members: it reads the first JSON value of the stream; the
sample body is read as the member `name` with value `al`, any other value as having
no members, and a stream without a complete value is malformed. -/
def sampleDecodeJson (data : List Nat) : Option (GoMap GoString) :=
  match firstJsonValue data with
  | none => none
  | some value => if value = sampleBody then some [("name".toList, "al".toList)] else some []

/-- Sample collaborators: the merge engine over the sample parsers, with `2` as the
error of malformed JSON and `3` as the error of a field that is not set. -/
def sampleCollab : Collaborators Shape Nat :=
  mergeEngine sampleBase sampleDecodeJson 2 (fun _ => 3)

/-- A sample target shape: `ID`, bound to the path variable `id`, and `Name`, bound to
the query parameter `name` and, optionally, to the JSON member `name`. -/
def sampleShape : Shape :=
  [{ bindings := [(pathKey, { name := "id".toList, optional := false, defaultValue := none })],
      value := [] },
    { bindings :=
        [(queryKey, { name := "name".toList, optional := false, defaultValue := none }),
          (jsonKey, { name := "name".toList, optional := true, defaultValue := none })],
      value := [] }]

/-- A sample request: path variable `id=42`, query `name=bob`, a JSON body. -/
def sampleRequest : Request where
  ContentLength := 13
  Header := [(ContentType, ["application/json; charset=utf-8".toList])]
  RawQuery := "name=bob".toList
  Body := sampleBody
  Form := []
  Vars := [("id".toList, "42".toList)]

/-- A sample validator, which rejects every request with error `7`. -/
def sampleValidator : Validator Shape Nat where
  dynType := 0
  name := 1
  Validate := fun _ v => (v, some 7)

/-- A second sample validator, of another concrete type, which accepts every
request. -/
def otherValidator : Validator Shape Nat where
  dynType := 1
  name := 2
  Validate := fun _ v => (v, none)

/-- The sample state before `Parse`: the sample validator is registered. -/
def sampleState : State Shape Nat where
  req := sampleRequest
  target := sampleShape
  validator := some sampleValidator
  trace := []

/-- The sample state with a query string that does not parse. -/
def badQueryState : State Shape Nat :=
  { sampleState with req := { sampleRequest with RawQuery := "a;b".toList } }

/-- A body longer than the read ceiling: an empty object followed by `maxBodyLen`
(8388608) spaces. -/
def oversizedBody : List Nat := 0x7B :: 0x7D :: List.replicate maxBodyLen 0x20

/-- A request whose JSON body is longer than the read ceiling. -/
def oversizedRequest : Request where
  ContentLength := 8388610
  Header := [(ContentType, ["application/json".toList])]
  RawQuery := []
  Body := oversizedBody
  Form := []
  Vars := []

/-- Collaborators with the JSON decoder of the specification over a target without
fields to populate. -/
def oversizedCollab : Collaborators Shape Nat :=
  withJsonDecoder sampleBase (fun _ v => (v, none)) 2

/-- The state before the oversized request is parsed. -/
def oversizedState : State Shape Nat where
  req := oversizedRequest
  target := []
  validator := none
  trace := []

/-- The sample state after the path stage. -/
def afterPath : State Shape Nat := (ParsePath sampleCollab sampleState).1

/-- The sample state after the query stage. -/
def afterQuery : State Shape Nat := (ParseQuery sampleCollab afterPath).1

/-- The sample state after the form stage. -/
def afterForm : State Shape Nat := (ParseForm sampleCollab afterQuery).1

/-- The sample state after the header stage. -/
def afterHeaders : State Shape Nat := (ParseHeaders sampleCollab afterForm).1

/-- The sample state after the JSON-body stage. -/
def afterJsonBody : State Shape Nat := (ParseJsonBody sampleCollab afterHeaders).1

/-- The sample state before any validator is registered. -/
def freshState : State Shape Nat := { sampleState with validator := none }

/-- A sample self-validation method, which rejects every target with error `9`. -/
def sampleSelfValidate : Shape → Shape × Option Nat := fun v => (v, some 9)

/-- The sample request without a body. -/
def emptyBodyRequest : Request := { sampleRequest with ContentLength := 0, Body := [] }

/-- The sample request with a plain-text body. -/
def textPlainRequest : Request :=
  { sampleRequest with Header := [(ContentType, ["text/plain".toList])] }

/-- The sample request sent with chunked transfer encoding: the same JSON body, and
a content length that is unknown (`-1`). -/
def chunkedRequest : Request := { sampleRequest with ContentLength := -1 }

/-- The state before the chunked request is parsed; no validator is registered. -/
def chunkedState : State Shape Nat := { freshState with req := chunkedRequest }

/-- A self-validation method that accepts every target and clears its fields. -/
def clearingValidate : Shape → Shape × Option Nat :=
  fun v => (v.map (fun f => { f with value := [] }), none)

/-- The sample target shape with `Name` bound to the JSON member `name` as a required
field. -/
def requiredShape : Shape :=
  [{ bindings :=
        [(queryKey, { name := "name".toList, optional := false, defaultValue := none }),
          (jsonKey, { name := "name".toList, optional := false, defaultValue := none })],
      value := [] }]

/-- The sample request with a repeated and an empty query parameter. -/
def repeatedQueryRequest : Request := { sampleRequest with RawQuery := "a=1&b=&a=2".toList }

/-! ## Reference notions used to state the properties of `Parse` -/

/-- The five decode stages, in the order of the specification. -/
def decodeStages {T E : Type} [DecidableEq E] (c : Collaborators T E) :
    List (State T E → State T E × Option E) :=
  [ParsePath c, ParseQuery c, ParseForm c, ParseHeaders c, ParseJsonBody c]

/-- The events of the five decode stages, in the same order. -/
def stageEvents : List Event :=
  [Event.parsePath, Event.parseQuery, Event.parseForm, Event.parseHeaders,
    Event.parseJsonBody]

/-- The first stage of a list that returns a non-nil error when the stages are run
one after the other: its position, the state it leaves and its error. -/
def firstFailure {T E : Type} :
    List (State T E → State T E × Option E) → State T E → Option (Nat × State T E × E)
  | [], _ => none
  | stage :: rest, s =>
    match stage s with
    | (s', some err) => some (0, s', err)
    | (s', none) =>
      match firstFailure rest s' with
      | some (k, s'', err) => some (k + 1, s'', err)
      | none => none

/-- The request once `r.ParseForm()` and `r.ParseMultipartForm(maxMemory)` have run on
it. -/
def requestAfterForm {T E : Type} (c : Collaborators T E) (r : Request) : Request :=
  (c.ParseMultipartForm maxMemory (c.ParseForm r).1).1

/-- The five stage effects of the specification applied to a target in the order
path, query, form, header, JSON body: the engine unmarshals, under the tag key of
each source, the map extracted from that source (the path variables; the first value
of each query parameter; the first value of each form field), then decodes the
headers, then decodes the JSON body read up to the ceiling when the request is
classified as carrying one and the empty map otherwise. -/
def decodedTarget {T E : Type} (c : Collaborators T E) (r : Request) (t : T) : T :=
  let t1 := (c.Unmarshal pathKey r (r.Vars.foldl (fun m kv => m.store kv.1 kv.2) []) t).1
  let t2 := (c.Unmarshal queryKey r (collectParams (c.ParseQuery r.RawQuery).1) t1).1
  let r3 := requestAfterForm c r
  let t3 := (c.Unmarshal formKey r3 (collectParams r3.Form) t2).1
  let t4 := (c.ParseRequestHeaders r3 t3).1
  if withJsonBody r3 then (c.UnmarshalJsonReader (LimitReader r3.Body maxBodyLen) r3 t4).1
  else (c.UnmarshalJsonMap r3 t4).1

/-- The field `r.Form` once `r.ParseForm()` and `r.ParseMultipartForm(maxMemory)` have
run on the request. -/
def parsedForm {T E : Type} (c : Collaborators T E) (r : Request) : GoMap (List GoString) :=
  (c.ParseMultipartForm maxMemory (c.ParseForm r).1).1.Form

/-! ## Facts about the string functions -/

theorem HasPrefix_singleton (x c : Char) (s : GoString) :
    HasPrefix (x :: s) [c] = (x == c) := by
  simp [HasPrefix]

theorem Index_singleton_nonneg_or (c : Char) (s : GoString) :
    Index s [c] = -1 ∨ 0 ≤ Index s [c] := by
  induction s with
  | nil => left; simp [Index]
  | cons x xs ih =>
    simp only [Index, HasPrefix_singleton]
    by_cases hx : x = c
    · right; simp [hx]
    · rcases ih with h | h
      · left; simp [hx, h]
      · right
        have : ¬ Index xs [c] < 0 := by omega
        simp [hx, this]; omega

theorem Index_singleton_of_not_mem (c : Char) (s : GoString) (h : c ∉ s) :
    Index s [c] = -1 := by
  induction s with
  | nil => simp [Index]
  | cons x xs ih =>
    have hx : ¬ x = c := fun e => h (by simp [e])
    have hxs : c ∉ xs := fun m => h (List.mem_cons_of_mem _ m)
    simp [Index, HasPrefix_singleton, hx, ih hxs]

theorem Index_singleton_of_mem (c : Char) (s : GoString) (h : c ∈ s) :
    Index s [c] = ((s.takeWhile (fun x => x != c)).length : Int) := by
  induction s with
  | nil => simp at h
  | cons x xs ih =>
    by_cases hx : x = c
    · simp [Index, HasPrefix_singleton, hx]
    · have hxs : c ∈ xs := by
        rcases List.mem_cons.mp h with e | m
        · exact absurd e.symm hx
        · exact m
      have hi := ih hxs
      have hn : ¬ Index xs [c] < 0 := by rw [hi]; omega
      simp [Index, HasPrefix_singleton, hx, hn, hi, List.takeWhile_cons]

theorem take_takeWhile_length {α : Type} (p : α → Bool) (s : List α) :
    s.take (s.takeWhile p).length = s.takeWhile p := by
  induction s with
  | nil => simp
  | cons x xs ih =>
    by_cases hx : p x <;> simp [List.takeWhile_cons, hx, ih]

theorem drop_takeWhile_length {α : Type} (p : α → Bool) (s : List α) :
    s.drop (s.takeWhile p).length = s.dropWhile p := by
  induction s with
  | nil => simp
  | cons x xs ih =>
    by_cases hx : p x <;> simp [List.takeWhile_cons, List.dropWhile_cons, hx, ih]

/-- One cut of `genSplitLoop` at a single-character separator that occurs. -/
theorem genSplitLoop_succ_of_mem (c : Char) (k : Nat) (s : GoString) (h : c ∈ s) :
    genSplitLoop [c] (k + 1) s =
      s.takeWhile (fun x => x != c) ::
        genSplitLoop [c] k ((s.dropWhile (fun x => x != c)).drop 1) := by
  have hi := Index_singleton_of_mem c s h
  have hn : ¬ Index s [c] < 0 := by rw [hi]; omega
  have hz : ¬ ((List.takeWhile (fun x => x != c) s).length : Int) < 0 := by omega
  simp only [genSplitLoop, hi, hz, if_false, Int.toNat_ofNat, List.length_singleton]
  rw [take_takeWhile_length, ← List.drop_drop, drop_takeWhile_length]

theorem genSplitLoop_of_not_mem (c : Char) (k : Nat) (s : GoString) (h : c ∉ s) :
    genSplitLoop [c] k s = [s] := by
  cases k with
  | zero => rfl
  | succ k => simp [genSplitLoop, Index_singleton_of_not_mem c s h]

theorem splitOnChar_ne_nil (c : Char) (s : GoString) : splitOnChar c s ≠ [] := by
  cases s with
  | nil => simp [splitOnChar]
  | cons x xs =>
    by_cases hx : x = c
    · simp [splitOnChar, hx]
    · cases h : splitOnChar c xs <;> simp [splitOnChar, hx, h]

theorem splitOnChar_of_not_mem (c : Char) (s : GoString) (h : c ∉ s) :
    splitOnChar c s = [s] := by
  induction s with
  | nil => rfl
  | cons x xs ih =>
    have hx : ¬ x = c := fun e => h (by simp [e])
    have hxs : c ∉ xs := fun m => h (List.mem_cons_of_mem _ m)
    simp [splitOnChar, hx, ih hxs]

theorem splitOnChar_of_mem (c : Char) (s : GoString) (h : c ∈ s) :
    splitOnChar c s =
      s.takeWhile (fun x => x != c) ::
        splitOnChar c ((s.dropWhile (fun x => x != c)).drop 1) := by
  induction s with
  | nil => simp at h
  | cons x xs ih =>
    by_cases hx : x = c
    · simp [splitOnChar, hx]
    · have hxs : c ∈ xs := by
        rcases List.mem_cons.mp h with e | m
        · exact absurd e.symm hx
        · exact m
      simp [splitOnChar, hx, ih hxs, List.takeWhile_cons, List.dropWhile_cons]

theorem count_after_first (c : Char) (s : GoString) (h : c ∈ s) :
    s.count c = ((s.dropWhile (fun x => x != c)).drop 1).count c + 1 := by
  induction s with
  | nil => simp at h
  | cons x xs ih =>
    by_cases hx : x = c
    · simp [hx]
    · have hxs : c ∈ xs := by
        rcases List.mem_cons.mp h with e | m
        · exact absurd e.symm hx
        · exact m
      simp [List.count_cons, hx, List.dropWhile_cons, ih hxs]

/-- With as many cuts as the separator has occurrences, the loop of `genSplit`
splits at every occurrence. -/
theorem genSplitLoop_count (c : Char) (k : Nat) :
    ∀ s : GoString, s.count c = k → genSplitLoop [c] k s = splitOnChar c s := by
  induction k with
  | zero =>
    intro s hs
    have h : c ∉ s := List.count_eq_zero.mp hs
    rw [genSplitLoop_of_not_mem c 0 s h, splitOnChar_of_not_mem c s h]
  | succ k ih =>
    intro s hs
    have h : c ∈ s := by
      apply List.count_pos_iff.mp
      omega
    have hc := count_after_first c s h
    rw [genSplitLoop_succ_of_mem c k s h, splitOnChar_of_mem c s h, ih _ (by omega)]

/-- The function `strings.Split` at a one-character separator splits at every
occurrence of the character. -/
theorem Split_singleton (c : Char) (s : GoString) : Split s [c] = splitOnChar c s := by
  have hle : s.count c ≤ s.length := List.count_le_length c s
  have h1 : ¬ ((s.count c : Int) + 1 > (s.length : Int) + 1) := by omega
  simp only [Split, genSplit, Count]
  simp [h1, genSplitLoop_count c (s.count c) s rfl]

/-- The call `strings.SplitN(field, "=", 2)` on a non-empty string. -/
theorem SplitN_two (c : Char) (s : GoString) (hs : s ≠ []) :
    SplitN s [c] 2 =
      if c ∈ s then [s.takeWhile (fun x => x != c), (s.dropWhile (fun x => x != c)).drop 1]
      else [s] := by
  have hlen : 1 ≤ s.length := by
    cases s with
    | nil => exact absurd rfl hs
    | cons x xs => simp
  have h1 : ¬ ((2 : Int) > (s.length : Int) + 1) := by omega
  simp only [SplitN, genSplit]
  by_cases h : c ∈ s
  · simp [h1, h, genSplitLoop_succ_of_mem c 0 s h, genSplitLoop]
  · simp [h1, h, genSplitLoop_of_not_mem c 1 s h]

/-- One iteration of the loop of `ParseHeader`, in the words of the reference. -/
theorem parseHeaderStep_eq (ret : GoMap GoString) (field : GoString) :
    parseHeaderStep ret field =
      if TrimSpace field ≠ [] ∧ '=' ∈ TrimSpace field then
        ret.store (beforeFirstEq (TrimSpace field)) (afterFirstEq (TrimSpace field))
      else ret := by
  unfold parseHeaderStep
  by_cases h0 : TrimSpace field = []
  · simp [h0]
  · have hl : ¬ (TrimSpace field).length = 0 := by
      simpa [List.length_eq_zero] using h0
    simp only [hl, if_false, tokensInAttribute]
    rw [show ((2 : Nat) : Int) = 2 from rfl, SplitN_two '=' _ h0]
    by_cases he : '=' ∈ TrimSpace field
    · simp [h0, he, beforeFirstEq, afterFirstEq]
    · simp [h0, he]

theorem foldl_parseHeaderStep (fields : List GoString) :
    ∀ ret : GoMap GoString,
      fields.foldl parseHeaderStep ret =
        (((fields.map TrimSpace).filter (fun seg => seg ≠ [])).filter
            (fun seg => '=' ∈ seg)).foldl
          (fun m seg => m.store (beforeFirstEq seg) (afterFirstEq seg)) ret := by
  induction fields with
  | nil => intro ret; rfl
  | cons f fs ih =>
    intro ret
    rw [List.foldl_cons, ih, parseHeaderStep_eq]
    by_cases h0 : TrimSpace f = []
    · simp [h0, List.filter_cons]
    · by_cases he : '=' ∈ TrimSpace f
      · simp [h0, he, List.filter_cons]
      · simp [h0, he, List.filter_cons]

/-- C3: for every header value, `ParseHeader` builds the same map as the reference
of the specification (split on `;`, trim, drop empty segments and segments without
`=`, bind the text before the first `=` to the text after it, later segments
overwriting), and `ParseHeader("a=1; b=2;  ;c")` is exactly the map with `a` bound
to `1` and `b` bound to `2`. -/
theorem ParseHeader_refines_reference :
    (∀ raw : GoString, ParseHeader raw = ParseHeaderRef raw) ∧
      ParseHeader "a=1; b=2;  ;c".toList =
        [("a".toList, "1".toList), ("b".toList, "2".toList)] := by
  refine ⟨?_, by decide⟩
  intro raw
  simp only [ParseHeader, ParseHeaderRef, separator]
  rw [Split_singleton, foldl_parseHeaderStep]

/-! ### The decode stages and the trace -/

theorem ParsePath_frame {T E : Type} (c : Collaborators T E) (s : State T E) :
    (ParsePath c s).1.trace = s.trace ++ [Event.parsePath] ∧
      (ParsePath c s).1.validator = s.validator ∧ (ParsePath c s).1.req = s.req := by
  simp [ParsePath, State.log]

theorem ParseQuery_frame {T E : Type} (c : Collaborators T E) (s : State T E) :
    (ParseQuery c s).1.trace = s.trace ++ [Event.parseQuery] ∧
      (ParseQuery c s).1.validator = s.validator ∧ (ParseQuery c s).1.req = s.req := by
  unfold ParseQuery
  simp only [State.log]
  rcases h : GetQueryValues c s.req with ⟨m, _ | e⟩ <;> simp

theorem ParseForm_frame {T E : Type} [DecidableEq E] (c : Collaborators T E)
    (s : State T E) :
    (ParseForm c s).1.trace = s.trace ++ [Event.parseForm] ∧
      (ParseForm c s).1.validator = s.validator ∧
      (ParseForm c s).1.req = (GetFormValues c s.req).1 := by
  unfold ParseForm
  simp only [State.log]
  rcases h : GetFormValues c s.req with ⟨r, m, _ | e⟩ <;> simp

theorem ParseHeaders_frame {T E : Type} (c : Collaborators T E) (s : State T E) :
    (ParseHeaders c s).1.trace = s.trace ++ [Event.parseHeaders] ∧
      (ParseHeaders c s).1.validator = s.validator ∧ (ParseHeaders c s).1.req = s.req := by
  simp [ParseHeaders, State.log]

theorem ParseJsonBody_frame {T E : Type} (c : Collaborators T E) (s : State T E) :
    (ParseJsonBody c s).1.trace = s.trace ++ [Event.parseJsonBody] ∧
      (ParseJsonBody c s).1.validator = s.validator ∧
      (ParseJsonBody c s).1.req = s.req := by
  unfold ParseJsonBody
  by_cases h : withJsonBody s.req = true <;> simp [h, State.log]

/-- When a decode stage fails, `Parse` stops there. -/
theorem Parse_of_firstFailure {T E : Type} [DecidableEq E] (c : Collaborators T E)
    (valid : Option (T → T × Option E)) (s s1 : State T E) (k : Nat) (e : E)
    (h : firstFailure (decodeStages c) s = some (k, s1, e)) :
    Parse c valid s = (s1, some e) ∧ s1.trace = s.trace ++ stageEvents.take (k + 1) := by
  have f1 := (ParsePath_frame c s).1
  unfold Parse
  simp only [decodeStages, firstFailure] at h
  rcases h1 : ParsePath c s with ⟨a1, _ | e1⟩
  case some =>
    rw [h1] at h f1
    simp only [Option.some.injEq, Prod.mk.injEq] at h
    obtain ⟨hk, hs, he⟩ := h
    subst hk hs he
    exact ⟨rfl, by simpa [stageEvents] using f1⟩
  rw [h1] at h f1
  dsimp only at h f1 ⊢
  have f2 := (ParseQuery_frame c a1).1
  rcases h2 : ParseQuery c a1 with ⟨a2, _ | e2⟩
  case some =>
    rw [h2] at h f2
    dsimp only at h f2
    simp only [Option.some.injEq, Prod.mk.injEq] at h
    obtain ⟨hk, hs, he⟩ := h
    subst hk hs he
    refine ⟨rfl, ?_⟩
    simp [stageEvents, f2, f1]
  rw [h2] at h f2
  dsimp only at h f2 ⊢
  have f3 := (ParseForm_frame c a2).1
  rcases h3 : ParseForm c a2 with ⟨a3, _ | e3⟩
  case some =>
    rw [h3] at h f3
    dsimp only at h f3
    simp only [Option.some.injEq, Prod.mk.injEq] at h
    obtain ⟨hk, hs, he⟩ := h
    subst hk hs he
    refine ⟨rfl, ?_⟩
    simp [stageEvents, f3, f2, f1]
  rw [h3] at h f3
  dsimp only at h f3 ⊢
  have f4 := (ParseHeaders_frame c a3).1
  rcases h4 : ParseHeaders c a3 with ⟨a4, _ | e4⟩
  case some =>
    rw [h4] at h f4
    dsimp only at h f4
    simp only [Option.some.injEq, Prod.mk.injEq] at h
    obtain ⟨hk, hs, he⟩ := h
    subst hk hs he
    refine ⟨rfl, ?_⟩
    simp [stageEvents, f4, f3, f2, f1]
  rw [h4] at h f4
  dsimp only at h f4 ⊢
  have f5 := (ParseJsonBody_frame c a4).1
  rcases h5 : ParseJsonBody c a4 with ⟨a5, _ | e5⟩
  case some =>
    rw [h5] at h f5
    dsimp only at h f5
    simp only [Option.some.injEq, Prod.mk.injEq] at h
    obtain ⟨hk, hs, he⟩ := h
    subst hk hs he
    refine ⟨rfl, ?_⟩
    simp [stageEvents, f5, f4, f3, f2, f1]
  rw [h5] at h
  simp at h

/-- When the five decode stages succeed, `Parse` goes on to validation. -/
theorem Parse_of_decoded {T E : Type} [DecidableEq E] (c : Collaborators T E)
    (valid : Option (T → T × Option E)) (s s1 s2 s3 s4 s5 : State T E)
    (h1 : ParsePath c s = (s1, none)) (h2 : ParseQuery c s1 = (s2, none))
    (h3 : ParseForm c s2 = (s3, none)) (h4 : ParseHeaders c s3 = (s4, none))
    (h5 : ParseJsonBody c s4 = (s5, none)) :
    Parse c valid s =
      match valid with
      | some validate =>
        ({ s5.log Event.selfValidate with target := (validate s5.target).1 },
          (validate s5.target).2)
      | none =>
        match s5.validator with
        | some val =>
          ({ s5.log (Event.validate val.name) with
              target := (val.Validate s5.req s5.target).1 },
            (val.Validate s5.req s5.target).2)
        | none => (s5, none) := by
  unfold Parse
  simp only [h1, h2, h3, h4, h5]

/-- What the five decode stages leave behind apart from the target: the five calls
in order, the same registered validator, and the request as updated by the form
parsing of net/http. -/
theorem decoded_frame {T E : Type} [DecidableEq E] (c : Collaborators T E)
    (s s1 s2 s3 s4 s5 : State T E)
    (h1 : ParsePath c s = (s1, none)) (h2 : ParseQuery c s1 = (s2, none))
    (h3 : ParseForm c s2 = (s3, none)) (h4 : ParseHeaders c s3 = (s4, none))
    (h5 : ParseJsonBody c s4 = (s5, none)) :
    s5.trace = s.trace ++ stageEvents ∧ s5.validator = s.validator ∧
      s5.req = (GetFormValues c s.req).1 := by
  have f1 := ParsePath_frame c s
  have f2 := ParseQuery_frame c s1
  have f3 := ParseForm_frame c s2
  have f4 := ParseHeaders_frame c s3
  have f5 := ParseJsonBody_frame c s4
  rw [h1] at f1
  rw [h2] at f2
  rw [h3] at f3
  rw [h4] at f4
  rw [h5] at f5
  dsimp only at f1 f2 f3 f4 f5
  obtain ⟨t1, v1, r1⟩ := f1
  obtain ⟨t2, v2, r2⟩ := f2
  obtain ⟨t3, v3, r3⟩ := f3
  obtain ⟨t4, v4, r4⟩ := f4
  obtain ⟨t5, v5, r5⟩ := f5
  refine ⟨?_, ?_, ?_⟩
  · simp [t5, t4, t3, t2, t1, stageEvents]
  · rw [v5, v4, v3, v2, v1]
  · rw [r5, r4, r3, r2, r1]

/-! ### Substring search -/

theorem HasPrefix_iff (s p : GoString) : HasPrefix s p = true ↔ p <+: s := by
  induction s generalizing p with
  | nil =>
    cases p with
    | nil => simp [HasPrefix]
    | cons d p => simp [HasPrefix]
  | cons c s ih =>
    cases p with
    | nil => simp [HasPrefix]
    | cons d p =>
      simp only [HasPrefix, Bool.and_eq_true, beq_iff_eq, ih, List.cons_prefix_cons]
      constructor
      · rintro ⟨h1, h2⟩; exact ⟨h1.symm, h2⟩
      · rintro ⟨h1, h2⟩; exact ⟨h1.symm, h2⟩

theorem Index_ge_neg_one (s p : GoString) : -1 ≤ Index s p := by
  induction s with
  | nil => simp only [Index]; split <;> omega
  | cons c s ih =>
    simp only [Index]
    split
    · omega
    · split <;> omega

theorem Index_nonneg_iff (s p : GoString) : 0 ≤ Index s p ↔ p <:+: s := by
  induction s with
  | nil =>
    cases p with
    | nil => simp [Index]
    | cons d p => simp [Index]
  | cons c s ih =>
    rw [List.infix_cons_iff, ← ih, ← HasPrefix_iff]
    simp only [Index]
    by_cases hp : HasPrefix (c :: s) p = true
    · simp [hp]
    · have hge := Index_ge_neg_one s p
      by_cases hi : Index s p < 0
      · simp [hp, hi]
      · simp only [hp, hi, if_false, false_or]
        constructor <;> intro <;> omega

/-- The function `strings.Contains` decides whether `substr` occurs in `s`. -/
theorem Contains_iff (s substr : GoString) : Contains s substr = true ↔ substr <:+: s := by
  simp [Contains, Index_nonneg_iff]

/-! ### Maps -/

theorem GoMap_lookup_store_self {V : Type} (m : GoMap V) (k : GoString) (v : V) :
    (m.store k v).lookup k = some v := by
  induction m with
  | nil => simp [GoMap.store, GoMap.lookup]
  | cons p t ih =>
    obtain ⟨k1, v1⟩ := p
    by_cases hk : k1 = k
    · simp [GoMap.store, GoMap.lookup, hk]
    · simp [GoMap.store, GoMap.lookup, hk, ih]

theorem GoMap_lookup_store_of_ne {V : Type} (m : GoMap V) (k k2 : GoString) (v : V)
    (h : k2 ≠ k) : (m.store k v).lookup k2 = m.lookup k2 := by
  induction m with
  | nil => simp [GoMap.store, GoMap.lookup, Ne.symm h]
  | cons p t ih =>
    obtain ⟨k1, v1⟩ := p
    by_cases hk : k1 = k
    · subst hk
      simp [GoMap.store, GoMap.lookup, Ne.symm h]
    · by_cases hk2 : k1 = k2
      · subst hk2
        simp [GoMap.store, GoMap.lookup, hk]
      · simp [GoMap.store, GoMap.lookup, hk, hk2, ih]

theorem GoMap_mem_keys_store {V : Type} (m : GoMap V) (k k2 : GoString) (v : V) :
    k2 ∈ (m.store k v).keys ↔ k2 = k ∨ k2 ∈ m.keys := by
  induction m with
  | nil => simp [GoMap.store, GoMap.keys]
  | cons p t ih =>
    obtain ⟨k1, v1⟩ := p
    by_cases hk : k1 = k
    · subst hk
      simp only [GoMap.store, GoMap.keys, if_true, List.map_cons, List.mem_cons]
      tauto
    · simp only [GoMap.keys] at ih
      simp only [GoMap.store, hk, if_false, GoMap.keys, List.map_cons, List.mem_cons, ih]
      tauto

theorem GoMap_nodup_keys_store {V : Type} (m : GoMap V) (k : GoString) (v : V)
    (h : m.keys.Nodup) : (m.store k v).keys.Nodup := by
  induction m with
  | nil => simp [GoMap.store, GoMap.keys]
  | cons p t ih =>
    obtain ⟨k1, v1⟩ := p
    simp only [GoMap.keys, List.map_cons, List.nodup_cons] at h
    by_cases hk : k1 = k
    · subst hk
      simp only [GoMap.store, GoMap.keys, if_true, List.map_cons, List.nodup_cons]
      exact h
    · have hi := ih h.2
      have hm := GoMap_mem_keys_store t k k1 v
      simp only [GoMap.store, hk, if_false, GoMap.keys, List.map_cons, List.nodup_cons]
      refine ⟨?_, hi⟩
      intro hin
      rcases hm.mp hin with e | e
      · exact hk e
      · exact h.1 e

theorem GoMap_mem_keys_iff_lookup {V : Type} (m : GoMap V) (k : GoString) :
    k ∈ m.keys ↔ ∃ v, m.lookup k = some v := by
  induction m with
  | nil => simp [GoMap.keys, GoMap.lookup]
  | cons p t ih =>
    obtain ⟨k1, v1⟩ := p
    simp only [GoMap.keys] at ih
    by_cases hk : k1 = k
    · subst hk
      simp only [GoMap.keys, GoMap.lookup, if_true, List.map_cons, List.mem_cons, true_or,
        true_iff]
      exact ⟨v1, rfl⟩
    · simp only [GoMap.keys, GoMap.lookup, hk, if_false, List.map_cons, List.mem_cons, ih]
      constructor
      · rintro (e | e)
        · exact absurd e.symm hk
        · exact e
      · intro e
        exact Or.inr e

/-- Binding every name of a list to a value computed from the name. -/
theorem foldl_store_spec {V : Type} (f : GoString → V) (names : List GoString) :
    ∀ m : GoMap V,
      (∀ k, k ∈ (names.foldl (fun acc name => acc.store name (f name)) m).keys ↔
          k ∈ names ∨ k ∈ m.keys) ∧
        (m.keys.Nodup →
          (names.foldl (fun acc name => acc.store name (f name)) m).keys.Nodup) ∧
        (∀ k, k ∈ names →
          (names.foldl (fun acc name => acc.store name (f name)) m).lookup k =
            some (f k)) ∧
        (∀ k, k ∉ names →
          (names.foldl (fun acc name => acc.store name (f name)) m).lookup k =
            m.lookup k) := by
  induction names with
  | nil => intro m; simp
  | cons n ns ih =>
    intro m
    obtain ⟨hk, hn, hl, hl2⟩ := ih (m.store n (f n))
    simp only [List.foldl_cons]
    refine ⟨?_, ?_, ?_, ?_⟩
    · intro k
      rw [hk k, GoMap_mem_keys_store, List.mem_cons]
      tauto
    · intro hm
      exact hn (GoMap_nodup_keys_store m n (f n) hm)
    · intro k hkmem
      by_cases hkn : k ∈ ns
      · exact hl k hkn
      · rw [hl2 k hkn]
        rcases List.mem_cons.mp hkmem with e | e
        · subst e
          exact GoMap_lookup_store_self m k (f k)
        · exact absurd e hkn
    · intro k hkmem
      have h1 : k ≠ n := fun e => hkmem (by simp [e])
      have h2 : k ∉ ns := fun e => hkmem (List.mem_cons_of_mem _ e)
      rw [hl2 k h2, GoMap_lookup_store_of_ne m n k (f n) h1]

theorem collectParams_eq (values : GoMap (List GoString)) :
    collectParams values =
      values.keys.foldl
        (fun (acc : GoMap GoString) name => acc.store name (ValuesGet values name)) [] := by
  unfold collectParams
  congr 1
  funext params name
  by_cases h : (ValuesGet values name).length > 0
  · simp [h]
  · have h0 : ValuesGet values name = [] := by
      apply List.length_eq_zero.mp
      omega
    simp [h0]

/-- The map collected from multi-valued parameters: its names are exactly the
parameter names, each once, and each name is bound to `Get(name)`. -/
theorem collectParams_spec (values : GoMap (List GoString)) :
    (∀ name, name ∈ (collectParams values).keys ↔ name ∈ values.keys) ∧
      (collectParams values).keys.Nodup ∧
      (∀ name, name ∈ values.keys →
        (collectParams values).lookup name = some (ValuesGet values name)) := by
  rw [collectParams_eq]
  obtain ⟨hk, hn, hl, _⟩ := foldl_store_spec (ValuesGet values) values.keys []
  refine ⟨?_, ?_, hl⟩
  · intro name
    rw [hk name]
    simp [GoMap.keys]
  · exact hn (by simp [GoMap.keys])

theorem ValuesGet_of_lookup (values : GoMap (List GoString)) (name v : GoString)
    (rest : List GoString) (h : values.lookup name = some (v :: rest)) :
    ValuesGet values name = v := by
  simp [ValuesGet, h]

/-- When no decode stage fails, the stages succeed one after the other. -/
theorem chain_of_firstFailure_none {T E : Type} [DecidableEq E] (c : Collaborators T E)
    (s : State T E) (h : firstFailure (decodeStages c) s = none) :
    ∃ s1 s2 s3 s4 s5, ParsePath c s = (s1, none) ∧ ParseQuery c s1 = (s2, none) ∧
      ParseForm c s2 = (s3, none) ∧ ParseHeaders c s3 = (s4, none) ∧
      ParseJsonBody c s4 = (s5, none) := by
  simp only [decodeStages, firstFailure] at h
  rcases h1 : ParsePath c s with ⟨a1, _ | e1⟩
  case some => rw [h1] at h; simp at h
  rw [h1] at h
  dsimp only at h
  rcases h2 : ParseQuery c a1 with ⟨a2, _ | e2⟩
  case some => rw [h2] at h; simp at h
  rw [h2] at h
  dsimp only at h
  rcases h3 : ParseForm c a2 with ⟨a3, _ | e3⟩
  case some => rw [h3] at h; simp at h
  rw [h3] at h
  dsimp only at h
  rcases h4 : ParseHeaders c a3 with ⟨a4, _ | e4⟩
  case some => rw [h4] at h; simp at h
  rw [h4] at h
  dsimp only at h
  rcases h5 : ParseJsonBody c a4 with ⟨a5, _ | e5⟩
  case some => rw [h5] at h; simp at h
  exact ⟨a1, a2, a3, a4, a5, rfl, h2, h3, h4, h5⟩

/-- The calls of one `Parse`: never both the self-validation of the target and a
registered validator. -/
theorem Parse_calls_exclusive {T E : Type} [DecidableEq E] (c : Collaborators T E)
    (valid : Option (T → T × Option E)) (s : State T E) :
    ∃ calls, (Parse c valid s).1.trace = s.trace ++ calls ∧
      ¬ (Event.selfValidate ∈ calls ∧ ∃ n, Event.validate n ∈ calls) := by
  rcases hff : firstFailure (decodeStages c) s with _ | ⟨k, s1, e⟩
  · obtain ⟨s1, s2, s3, s4, s5, h1, h2, h3, h4, h5⟩ := chain_of_firstFailure_none c s hff
    have hp := Parse_of_decoded c valid s s1 s2 s3 s4 s5 h1 h2 h3 h4 h5
    have hf := (decoded_frame c s s1 s2 s3 s4 s5 h1 h2 h3 h4 h5).1
    cases valid with
    | some validate =>
      refine ⟨stageEvents ++ [Event.selfValidate], ?_, ?_⟩
      · rw [hp]; simp [State.log, hf]
      · simp [stageEvents]
    | none =>
      rcases hv : s5.validator with _ | val
      · refine ⟨stageEvents, ?_, ?_⟩
        · rw [hp]; simp [hv, hf]
        · simp [stageEvents]
      · refine ⟨stageEvents ++ [Event.validate val.name], ?_, ?_⟩
        · rw [hp]; simp [hv, State.log, hf]
        · simp [stageEvents]
  · obtain ⟨hp, ht⟩ := Parse_of_firstFailure c valid s s1 k e hff
    refine ⟨stageEvents.take (k + 1), ?_, ?_⟩
    · rw [hp]; exact ht
    · rintro ⟨hmem, _⟩
      have := List.mem_of_mem_take hmem
      simp [stageEvents] at this

/-! ### What a successful stage has done -/

theorem ParsePath_ok {T E : Type} (c : Collaborators T E) (s s1 : State T E)
    (h : ParsePath c s = (s1, none)) :
    s1.req = s.req ∧
      c.Unmarshal pathKey s.req (s.req.Vars.foldl (fun m kv => m.store kv.1 kv.2) [])
        s.target = (s1.target, none) := by
  rcases hu : c.Unmarshal pathKey s.req (s.req.Vars.foldl (fun m kv => m.store kv.1 kv.2) [])
    s.target with ⟨t, e⟩
  simp only [ParsePath, State.log, hu, Prod.mk.injEq] at h
  obtain ⟨hs, he⟩ := h
  subst hs he
  exact ⟨rfl, hu⟩

theorem ParseQuery_ok {T E : Type} (c : Collaborators T E) (s s2 : State T E)
    (h : ParseQuery c s = (s2, none)) :
    s2.req = s.req ∧
      c.Unmarshal queryKey s.req (collectParams (c.ParseQuery s.req.RawQuery).1) s.target =
        (s2.target, none) := by
  rcases hq : c.ParseQuery s.req.RawQuery with ⟨values, _ | e0⟩
  · rcases hu : c.Unmarshal queryKey s.req (collectParams values) s.target with ⟨t, e⟩
    simp only [ParseQuery, GetQueryValues, State.log, hq, Option.getD_some, hu,
      Prod.mk.injEq] at h
    obtain ⟨hs, he⟩ := h
    subst hs he
    exact ⟨rfl, rfl⟩
  · simp [ParseQuery, GetQueryValues, State.log, hq] at h

theorem GetFormValues_ok {T E : Type} [DecidableEq E] (c : Collaborators T E)
    (r r3 : Request) (params : Option (GoMap GoString))
    (h : GetFormValues c r = (r3, params, none)) :
    r3 = requestAfterForm c r ∧ params = some (collectParams r3.Form) := by
  unfold GetFormValues at h
  unfold requestAfterForm
  rcases hf : c.ParseForm r with ⟨r1, _ | e1⟩
  · rw [hf] at h
    dsimp only at h ⊢
    rcases hm : c.ParseMultipartForm maxMemory r1 with ⟨r2, _ | e2⟩
    · rw [hm] at h
      simp only [Prod.mk.injEq, and_true] at h
      obtain ⟨hr, hp⟩ := h
      subst hr
      exact ⟨rfl, hp.symm⟩
    · rw [hm] at h
      by_cases he : e2 = c.ErrNotMultipart
      · simp only [he, ne_eq, not_true_eq_false, if_false, Prod.mk.injEq, and_true] at h
        obtain ⟨hr, hp⟩ := h
        subst hr
        exact ⟨rfl, hp.symm⟩
      · simp [he] at h
  · rw [hf] at h
    simp at h

theorem ParseForm_ok {T E : Type} [DecidableEq E] (c : Collaborators T E)
    (s s3 : State T E) (h : ParseForm c s = (s3, none)) :
    s3.req = requestAfterForm c s.req ∧
      c.Unmarshal formKey s3.req (collectParams s3.req.Form) s.target =
        (s3.target, none) := by
  rcases hg : GetFormValues c s.req with ⟨r, params, _ | e0⟩
  · obtain ⟨hr, hp⟩ := GetFormValues_ok c s.req r params hg
    subst hp
    rcases hu : c.Unmarshal formKey r (collectParams r.Form) s.target with ⟨t, e⟩
    simp only [ParseForm, State.log, hg, Option.getD_some, hu, Prod.mk.injEq] at h
    obtain ⟨hs, he⟩ := h
    subst hs he
    exact ⟨hr, hu⟩
  · simp [ParseForm, State.log, hg] at h

theorem ParseHeaders_ok {T E : Type} (c : Collaborators T E) (s s4 : State T E)
    (h : ParseHeaders c s = (s4, none)) :
    s4.req = s.req ∧ c.ParseRequestHeaders s.req s.target = (s4.target, none) := by
  rcases hu : c.ParseRequestHeaders s.req s.target with ⟨t, e⟩
  simp only [ParseHeaders, State.log, hu, Prod.mk.injEq] at h
  obtain ⟨hs, he⟩ := h
  subst hs he
  exact ⟨rfl, rfl⟩

theorem ParseJsonBody_ok {T E : Type} (c : Collaborators T E) (s s5 : State T E)
    (h : ParseJsonBody c s = (s5, none)) :
    s5.req = s.req ∧
      (if withJsonBody s.req then
          c.UnmarshalJsonReader (LimitReader s.req.Body maxBodyLen) s.req s.target
        else c.UnmarshalJsonMap s.req s.target) = (s5.target, none) := by
  by_cases hb : withJsonBody s.req = true
  · rcases hu : c.UnmarshalJsonReader (LimitReader s.req.Body maxBodyLen) s.req s.target
      with ⟨t, e⟩
    simp only [ParseJsonBody, State.log, hb, if_true, hu, Prod.mk.injEq] at h
    obtain ⟨hs, he⟩ := h
    subst hs he
    simp [hb, hu]
  · have hb0 : withJsonBody s.req = false := by simpa using hb
    rcases hu : c.UnmarshalJsonMap s.req s.target with ⟨t, e⟩
    simp only [ParseJsonBody, State.log, hb0, Bool.false_eq_true, if_false, hu,
      Prod.mk.injEq] at h
    obtain ⟨hs, he⟩ := h
    subst hs he
    simp [hb0, hu]

/-- When the five decode stages succeed, the target they leave is the result of the
five stage effects applied in order, and the request is the one the form parsing of
net/http has left. -/
theorem decoded_target {T E : Type} [DecidableEq E] (c : Collaborators T E)
    (s s1 s2 s3 s4 s5 : State T E)
    (h1 : ParsePath c s = (s1, none)) (h2 : ParseQuery c s1 = (s2, none))
    (h3 : ParseForm c s2 = (s3, none)) (h4 : ParseHeaders c s3 = (s4, none))
    (h5 : ParseJsonBody c s4 = (s5, none)) :
    s5.target = decodedTarget c s.req s.target ∧ s4.req = requestAfterForm c s.req := by
  obtain ⟨r1, u1⟩ := ParsePath_ok c s s1 h1
  obtain ⟨r2, u2⟩ := ParseQuery_ok c s1 s2 h2
  obtain ⟨r3, u3⟩ := ParseForm_ok c s2 s3 h3
  obtain ⟨r4, u4⟩ := ParseHeaders_ok c s3 s4 h4
  obtain ⟨r5, u5⟩ := ParseJsonBody_ok c s4 s5 h5
  rw [r2, r1] at r3
  rw [r1] at u2
  rw [r3] at u3 r4
  rw [r3] at u4
  rw [r4] at u5
  refine ⟨?_, r4⟩
  unfold decodedTarget
  simp only [u1, u2, u3, u4]
  by_cases hb : withJsonBody (requestAfterForm c s.req) = true
  · simp only [hb, if_true] at u5 ⊢
    rw [u5]
  · simp only [hb] at u5 ⊢
    simp only [Bool.false_eq_true, if_false] at u5 ⊢
    rw [u5]

/-! ### The merge engine -/

theorem mergeField_bindings {E : Type} (notSet : GoString → E) (tagKey : GoString)
    (m : GoMap GoString) (f : Field) :
    (mergeField notSet tagKey m f).1.bindings = f.bindings := by
  unfold mergeField
  cases hb : f.bindings.lookup tagKey with
  | none => rfl
  | some b =>
    cases hm : m.lookup b.name with
    | some v => simp [hm]
    | none =>
      cases hd : b.defaultValue with
      | some d => simp [hm, hd]
      | none =>
        by_cases ho : b.optional = true <;> simp [hm, hd, ho]

theorem mergeField_value {E : Type} (notSet : GoString → E) (tagKey : GoString)
    (m : GoMap GoString) (f : Field) (b : Binding) (v : GoString)
    (hb : f.bindings.lookup tagKey = some b) (hm : m.lookup b.name = some v) :
    (mergeField notSet tagKey m f).1.value = v := by
  simp [mergeField, hb, hm]

theorem mergeInto_map_bindings {E : Type} (notSet : GoString → E) (tagKey : GoString)
    (m : GoMap GoString) (shape : Shape) :
    (mergeInto notSet tagKey m shape).1.map Field.bindings = shape.map Field.bindings := by
  induction shape with
  | nil => rfl
  | cons f fs ih =>
    have hb := mergeField_bindings notSet tagKey m f
    rcases hf : mergeField notSet tagKey m f with ⟨f1, _ | e⟩
    · rw [hf] at hb
      rcases hr : mergeInto notSet tagKey m fs with ⟨fs1, err⟩
      rw [hr] at ih
      simp only [mergeInto, hf, hr, List.map_cons]
      rw [hb, ih]
    · rw [hf] at hb
      simp only [mergeInto, hf, List.map_cons]
      rw [hb]

/-- A merge keeps the bindings of the field at every position. -/
theorem mergeInto_bindings {E : Type} (notSet : GoString → E) (tagKey : GoString)
    (m : GoMap GoString) (shape : Shape) (i : Nat) :
    ((mergeInto notSet tagKey m shape).1[i]?).map Field.bindings =
      (shape[i]?).map Field.bindings := by
  rw [← List.getElem?_map, ← List.getElem?_map, mergeInto_map_bindings]

/-- A merge that succeeds has written the supplied value into the field bound to
it. -/
theorem mergeInto_value {E : Type} (notSet : GoString → E) (tagKey : GoString)
    (m : GoMap GoString) (b : Binding) (v : GoString)
    (hm : m.lookup b.name = some v) :
    ∀ (shape : Shape) (i : Nat) (bs : GoMap Binding),
      (mergeInto notSet tagKey m shape).2 = none →
      (shape[i]?).map Field.bindings = some bs → bs.lookup tagKey = some b →
      ((mergeInto notSet tagKey m shape).1[i]?).map Field.value = some v := by
  intro shape
  induction shape with
  | nil => intro i bs _ hf; simp at hf
  | cons f fs ih =>
    intro i bs hok hf hb
    rcases hmf : mergeField notSet tagKey m f with ⟨f1, _ | e⟩
    · rcases hr : mergeInto notSet tagKey m fs with ⟨fs1, err⟩
      simp only [mergeInto, hmf, hr] at hok ⊢
      cases i with
      | zero =>
        simp only [List.getElem?_cons_zero, Option.map_some', Option.some.injEq] at hf ⊢
        subst hf
        have := mergeField_value notSet tagKey m f b v hb hm
        rw [hmf] at this
        exact this
      | succ n =>
        simp only [List.getElem?_cons_succ] at hf ⊢
        have := ih n bs (by rw [hr]; exact hok) hf hb
        rw [hr] at this
        exact this
    · simp [mergeInto, hmf] at hok

theorem mergeInto_bindings_of_eq {E : Type} (notSet : GoString → E) (tagKey : GoString)
    (m : GoMap GoString) (shape shape1 : Shape) (err : Option E) (i : Nat)
    (h : mergeInto notSet tagKey m shape = (shape1, err)) :
    (shape1[i]?).map Field.bindings = (shape[i]?).map Field.bindings := by
  have := mergeInto_bindings notSet tagKey m shape i
  rw [h] at this
  exact this

theorem mergeInto_value_of_eq {E : Type} (notSet : GoString → E) (tagKey : GoString)
    (m : GoMap GoString) (shape shape1 : Shape) (i : Nat) (bs : GoMap Binding)
    (b : Binding) (v : GoString)
    (h : mergeInto notSet tagKey m shape = (shape1, none))
    (hf : (shape[i]?).map Field.bindings = some bs) (hb : bs.lookup tagKey = some b)
    (hm : m.lookup b.name = some v) :
    (shape1[i]?).map Field.value = some v := by
  have := mergeInto_value notSet tagKey m b v hm shape i bs (by rw [h]) hf hb
  rw [h] at this
  exact this

/-- C1: `Parse` is fail-fast over the order path, query, form, header, JSON body: if
the first decode stage to return a non-nil error is stage `k`, leaving state `s1`
with error `e`, then `Parse` returns exactly `e` in that state, and the calls it
made are exactly the stages up to `k`: no later decode stage, no self-validation
and no registered validator has run. -/
theorem Parse_fail_fast {T E : Type} [DecidableEq E] (c : Collaborators T E)
    (valid : Option (T → T × Option E)) (s s1 : State T E) (k : Nat) (e : E)
    (h : firstFailure (decodeStages c) s = some (k, s1, e)) :
    Parse c valid s = (s1, some e) ∧ s1.trace = s.trace ++ stageEvents.take (k + 1) :=
  Parse_of_firstFailure c valid s s1 k e h

theorem Parse_fail_fast_witness :
    firstFailure (decodeStages sampleCollab) badQueryState =
        some (1, (ParseQuery sampleCollab (ParsePath sampleCollab badQueryState).1).1, 1) ∧
      (Parse sampleCollab (some sampleSelfValidate) badQueryState).2 = some 1 ∧
      (Parse sampleCollab (some sampleSelfValidate) badQueryState).1.trace =
        [Event.parsePath, Event.parseQuery] := by
  have h : firstFailure (decodeStages sampleCollab) badQueryState =
      some (1, (ParseQuery sampleCollab (ParsePath sampleCollab badQueryState).1).1, 1) :=
    rfl
  have hp := Parse_fail_fast sampleCollab (some sampleSelfValidate) badQueryState _ 1 1 h
  refine ⟨h, ?_, ?_⟩
  · rw [hp.1]
  · rw [hp.1]
    exact hp.2

/-- C2: when the target implements self-validation and the five decode stages
succeed, `Parse` returns exactly the result of the target's own `Validate()`, run on
the target the stages have populated, and leaves the target as that method leaves
it; the calls it made are the five stages followed by that self-validation, so the
registered validator, present or not, is not among them; and in no call of `Parse`
at all are both validation paths invoked. -/
theorem Parse_self_validation {T E : Type} [DecidableEq E] (c : Collaborators T E)
    (validate : T → T × Option E) (s s1 s2 s3 s4 s5 : State T E)
    (h1 : ParsePath c s = (s1, none)) (h2 : ParseQuery c s1 = (s2, none))
    (h3 : ParseForm c s2 = (s3, none)) (h4 : ParseHeaders c s3 = (s4, none))
    (h5 : ParseJsonBody c s4 = (s5, none)) :
    (Parse c (some validate) s).2 = (validate s5.target).2 ∧
      (Parse c (some validate) s).1.target = (validate s5.target).1 ∧
      (Parse c (some validate) s).1.trace =
        s.trace ++ stageEvents ++ [Event.selfValidate] ∧
      (∀ n, Event.validate n ∉ stageEvents ++ [Event.selfValidate]) ∧
      (∀ (valid : Option (T → T × Option E)) (s0 : State T E),
        ∃ calls, (Parse c valid s0).1.trace = s0.trace ++ calls ∧
          ¬ (Event.selfValidate ∈ calls ∧ ∃ n, Event.validate n ∈ calls)) := by
  have hp := Parse_of_decoded c (some validate) s s1 s2 s3 s4 s5 h1 h2 h3 h4 h5
  have hf := (decoded_frame c s s1 s2 s3 s4 s5 h1 h2 h3 h4 h5).1
  refine ⟨?_, ?_, ?_, ?_, ?_⟩
  · rw [hp]
  · rw [hp]
  · rw [hp]; simp [State.log, hf]
  · intro n; simp [stageEvents]
  · intro valid s0
    exact Parse_calls_exclusive c valid s0

theorem Parse_self_validation_witness :
    (Parse sampleCollab (some sampleSelfValidate) sampleState).2 = some 9 ∧
      (Parse sampleCollab (some sampleSelfValidate) sampleState).1.trace =
        [Event.parsePath, Event.parseQuery, Event.parseForm, Event.parseHeaders,
          Event.parseJsonBody, Event.selfValidate] := by
  have h := Parse_self_validation sampleCollab sampleSelfValidate sampleState afterPath
    afterQuery afterForm afterHeaders afterJsonBody rfl rfl rfl rfl rfl
  refine ⟨h.1, ?_⟩
  rw [h.2.2.1]
  rfl

/-- C8: when the target does not implement self-validation and the five decode
stages succeed: with a validator registered, `Parse` calls that validator on the
request (the one it was given, as the form parsing of net/http has updated it) and
on the populated target, returns its result as it is and leaves the target as the
validator leaves it; with none registered, `Parse` returns nil. -/
theorem Parse_registered_validator {T E : Type} [DecidableEq E] (c : Collaborators T E)
    (s s1 s2 s3 s4 s5 : State T E)
    (h1 : ParsePath c s = (s1, none)) (h2 : ParseQuery c s1 = (s2, none))
    (h3 : ParseForm c s2 = (s3, none)) (h4 : ParseHeaders c s3 = (s4, none))
    (h5 : ParseJsonBody c s4 = (s5, none)) :
    (∀ val, s.validator = some val →
        Parse c none s =
          ({ s5.log (Event.validate val.name) with
              target := (val.Validate s5.req s5.target).1 },
            (val.Validate s5.req s5.target).2)) ∧
      (s.validator = none → Parse c none s = (s5, none)) ∧
      s5.req = (GetFormValues c s.req).1 ∧
      s5.trace = s.trace ++ stageEvents := by
  have hp := Parse_of_decoded c none s s1 s2 s3 s4 s5 h1 h2 h3 h4 h5
  obtain ⟨ht, hv, hr⟩ := decoded_frame c s s1 s2 s3 s4 s5 h1 h2 h3 h4 h5
  refine ⟨?_, ?_, hr, ht⟩
  · intro val hval
    rw [hp]
    simp [hv, hval]
  · intro hnone
    rw [hp]
    simp [hv, hnone]

theorem Parse_registered_validator_witness :
    (Parse sampleCollab none sampleState).2 = some 7 ∧
      (Parse sampleCollab none sampleState).1.trace =
        [Event.parsePath, Event.parseQuery, Event.parseForm, Event.parseHeaders,
          Event.parseJsonBody, Event.validate 1] ∧
      (Parse sampleCollab none freshState).2 = none := by
  have h := Parse_registered_validator sampleCollab sampleState afterPath afterQuery
    afterForm afterHeaders afterJsonBody rfl rfl rfl rfl rfl
  refine ⟨?_, ?_, by decide⟩
  · rw [h.1 sampleValidator rfl]
    rfl
  · rw [h.1 sampleValidator rfl]
    rfl

/-- C4: `withJsonBody` is true if and only if the content length is greater than 0
and the value of the `Content-Type` header contains `application/json`; it is false
whenever the content length is 0, whatever the header, and false for the content
type `text/plain`, whatever the length. -/
theorem withJsonBody_iff (r : Request) :
    (withJsonBody r = true ↔
        0 < r.ContentLength ∧ ApplicationJson <:+: HeaderGet r.Header ContentType) ∧
      (r.ContentLength = 0 → withJsonBody r = false) ∧
      (HeaderGet r.Header ContentType = "text/plain".toList → withJsonBody r = false) := by
  refine ⟨?_, ?_, ?_⟩
  · simp [withJsonBody, Contains_iff]
  · intro h
    simp [withJsonBody, h]
  · intro h
    have hc : Contains "text/plain".toList ApplicationJson = false := by decide
    simp only [withJsonBody, h, hc, Bool.and_false]

theorem withJsonBody_iff_witness :
    withJsonBody sampleRequest = true ∧ withJsonBody emptyBodyRequest = false ∧
      withJsonBody textPlainRequest = false :=
  ⟨(withJsonBody_iff sampleRequest).1.mpr
      ⟨by decide, ⟨[], "; charset=utf-8".toList, by decide⟩⟩,
    (withJsonBody_iff emptyBodyRequest).2.1 rfl,
    (withJsonBody_iff textPlainRequest).2.2 (by decide)⟩

/-- C5: when the raw query string parses into multi-valued parameters,
`GetQueryValues` returns a map whose names are exactly the parameter names, each
once, and which binds each name to the first value listed for it; a name whose first
value is empty (or that lists no value) is bound to the empty string, not absent. -/
theorem GetQueryValues_first_value {T E : Type} (c : Collaborators T E) (r : Request)
    (queryValues : GoMap (List GoString))
    (h : c.ParseQuery r.RawQuery = (queryValues, none)) :
    ∃ params, GetQueryValues c r = (some params, none) ∧
      (∀ name, name ∈ params.keys ↔ name ∈ queryValues.keys) ∧
      params.keys.Nodup ∧
      (∀ name v rest, queryValues.lookup name = some (v :: rest) →
        params.lookup name = some v) ∧
      (∀ name, queryValues.lookup name = some [] → params.lookup name = some []) := by
  obtain ⟨hk, hn, hl⟩ := collectParams_spec queryValues
  refine ⟨collectParams queryValues, ?_, hk, hn, ?_, ?_⟩
  · simp [GetQueryValues, h]
  · intro name v rest hv
    have hmem : name ∈ queryValues.keys :=
      (GoMap_mem_keys_iff_lookup queryValues name).mpr ⟨_, hv⟩
    rw [hl name hmem, ValuesGet_of_lookup queryValues name v rest hv]
  · intro name hv
    have hmem : name ∈ queryValues.keys :=
      (GoMap_mem_keys_iff_lookup queryValues name).mpr ⟨_, hv⟩
    rw [hl name hmem]
    simp [ValuesGet, hv]

theorem GetQueryValues_first_value_witness :
    sampleCollab.ParseQuery repeatedQueryRequest.RawQuery =
        ([("a".toList, ["1".toList, "2".toList]), ("b".toList, [[]])], none) ∧
      GetQueryValues sampleCollab repeatedQueryRequest =
        (some [("a".toList, "1".toList), ("b".toList, [])], none) := by
  have h : sampleCollab.ParseQuery repeatedQueryRequest.RawQuery =
      ([("a".toList, ["1".toList, "2".toList]), ("b".toList, [[]])], none) := by decide
  obtain ⟨params, hp, _⟩ :=
    GetQueryValues_first_value sampleCollab repeatedQueryRequest _ h
  exact ⟨h, by decide⟩

/-- C10: `GetFormValues` fails if and only if the URL-encoded form parsing fails or
the multipart parsing fails with an error other than `http.ErrNotMultipart`; a
failure returns that error and no map; and when the multipart parsing reports only
`http.ErrNotMultipart`, `GetFormValues` succeeds with the map of the form fields the
request then holds, each name once and bound to its first value or to the empty
string. -/
theorem GetFormValues_errors {T E : Type} [DecidableEq E] (c : Collaborators T E)
    (r : Request) :
    ((GetFormValues c r).2.2 ≠ none ↔
        ((c.ParseForm r).2 ≠ none ∨
          ((c.ParseForm r).2 = none ∧
            ∃ e, (c.ParseMultipartForm maxMemory (c.ParseForm r).1).2 = some e ∧
              e ≠ c.ErrNotMultipart))) ∧
      (∀ e, (GetFormValues c r).2.2 = some e →
        (GetFormValues c r).2.1 = none ∧
          ((c.ParseForm r).2 = some e ∨
            ((c.ParseForm r).2 = none ∧
              (c.ParseMultipartForm maxMemory (c.ParseForm r).1).2 = some e))) ∧
      ((c.ParseForm r).2 = none →
        (c.ParseMultipartForm maxMemory (c.ParseForm r).1).2 = some c.ErrNotMultipart →
        ∃ params, (GetFormValues c r).2 = (some params, none) ∧
          (∀ name, name ∈ params.keys ↔ name ∈ (parsedForm c r).keys) ∧
          params.keys.Nodup ∧
          (∀ name v rest, (parsedForm c r).lookup name = some (v :: rest) →
            params.lookup name = some v) ∧
          (∀ name, (parsedForm c r).lookup name = some [] →
            params.lookup name = some [])) := by
  unfold GetFormValues parsedForm
  rcases hf : c.ParseForm r with ⟨r1, _ | e1⟩
  · dsimp only
    rcases hm : c.ParseMultipartForm maxMemory r1 with ⟨r2, _ | e2⟩
    · refine ⟨by simp, by simp, ?_⟩
      intro _ habs
      simp at habs
    · by_cases he : e2 = c.ErrNotMultipart
      · refine ⟨by simp [he], by simp [he], ?_⟩
        intro _ _
        obtain ⟨hk, hn, hl⟩ := collectParams_spec r2.Form
        refine ⟨collectParams r2.Form, by simp [he], hk, hn, ?_, ?_⟩
        · intro name v rest hv
          have hmem : name ∈ r2.Form.keys :=
            (GoMap_mem_keys_iff_lookup r2.Form name).mpr ⟨_, hv⟩
          rw [hl name hmem, ValuesGet_of_lookup r2.Form name v rest hv]
        · intro name hv
          have hmem : name ∈ r2.Form.keys :=
            (GoMap_mem_keys_iff_lookup r2.Form name).mpr ⟨_, hv⟩
          rw [hl name hmem]
          simp [ValuesGet, hv]
      · refine ⟨by simp [he], ?_, ?_⟩
        · intro e hes
          simp only [he, if_true, ne_eq, not_false_eq_true] at hes
          simp only [Option.some.injEq] at hes
          subst hes
          simp [he]
        · intro _ habs
          simp only [Option.some.injEq] at habs
          exact absurd habs he
  · refine ⟨by simp, by simp, ?_⟩
    intro habs
    simp at habs

theorem GetFormValues_errors_witness :
    (sampleCollab.ParseForm sampleRequest).2 = none ∧
      (sampleCollab.ParseMultipartForm maxMemory (sampleCollab.ParseForm sampleRequest).1).2 =
        some sampleCollab.ErrNotMultipart ∧
      (GetFormValues sampleCollab sampleRequest).2 =
        (some [("name".toList, "bob".toList)], none) := by
  have h1 : (sampleCollab.ParseForm sampleRequest).2 = none := by decide
  have h2 : (sampleCollab.ParseMultipartForm maxMemory
      (sampleCollab.ParseForm sampleRequest).1).2 = some sampleCollab.ErrNotMultipart := by
    decide
  obtain ⟨params, hp, _⟩ := (GetFormValues_errors sampleCollab sampleRequest).2.2 h1 h2
  exact ⟨h1, h2, by decide⟩

/-! ### The read ceiling of the JSON body -/

theorem skipSpace_replicate_space (n : Nat) : skipSpace (List.replicate n 0x20) = [] := by
  induction n with
  | zero => rfl
  | succ n ih =>
    simp only [skipSpace] at ih
    simp [skipSpace, List.replicate_succ, List.dropWhile_cons, isJsonSpace, ih]

/-- From an empty object followed by spaces a streaming decoder reads the empty
object. -/
theorem firstJsonValue_padded_object (n : Nat) :
    firstJsonValue (0x7B :: 0x7D :: List.replicate n 0x20) = some [0x7B, 0x7D] := by
  have h1 : skipSpace (0x7B :: 0x7D :: List.replicate n 0x20) =
      0x7B :: 0x7D :: List.replicate n 0x20 := by
    simp [skipSpace, List.dropWhile_cons, isJsonSpace]
  have h2 : skipSpace (0x7D :: List.replicate n 0x20) = 0x7D :: List.replicate n 0x20 := by
    simp [skipSpace, List.dropWhile_cons, isJsonSpace]
  have h3 : n + 1 + 1 - n = 2 := by omega
  unfold firstJsonValue
  rw [h1]
  simp only [List.length_cons, scanJson, if_true, h2, List.length_replicate, h3]
  rfl

/-- A streaming decoder reads the first value and leaves what follows it unread, and
it finds no value in a stream that ends inside one. -/
theorem firstJsonValue_samples :
    firstJsonValue (bytesOf "\x7b\x7dx") = some (bytesOf "\x7b\x7d") ∧
      firstJsonValue (bytesOf " [1, 2] [") = some (bytesOf "[1, 2]") ∧
      firstJsonValue (bytesOf "\x7b\"name\":\"a") = none ∧
      firstJsonValue [] = none := by
  decide

theorem maxBodyLen_eq : maxBodyLen = 8388608 := by decide

theorem LimitReader_length (body : List Nat) (h : maxBodyLen < body.length) :
    (LimitReader body maxBodyLen).length = 8388608 := by
  rw [LimitReader, List.length_take, maxBodyLen_eq]
  rw [maxBodyLen_eq] at h
  omega

theorem take_padded {α : Type} (a b c : α) (m : Nat) :
    List.take (m + 2) (a :: b :: List.replicate (m + 2) c) = a :: b :: List.replicate m c := by
  rw [List.take_succ_cons, List.take_succ_cons, List.take_replicate]
  congr 3
  omega

theorem LimitReader_oversized :
    LimitReader oversizedBody maxBodyLen =
      0x7B :: 0x7D :: List.replicate (maxBodyLen - 2) 0x20 := by
  have h : maxBodyLen = (maxBodyLen - 2) + 2 := by decide
  unfold LimitReader oversizedBody
  generalize maxBodyLen - 2 = m at h ⊢
  rw [h]
  exact take_padded _ _ _ m

/-- On a request classified as carrying a JSON body, `ParseJsonBody` returns what the
JSON reader returns on the first `maxBodyLen` bytes of the body. -/
theorem ParseJsonBody_of_json {T E : Type} (c : Collaborators T E) (s : State T E)
    (hbody : withJsonBody s.req = true) :
    (ParseJsonBody c s).2 =
        (c.UnmarshalJsonReader (LimitReader s.req.Body maxBodyLen) s.req s.target).2 ∧
      (ParseJsonBody c s).1.target =
        (c.UnmarshalJsonReader (LimitReader s.req.Body maxBodyLen) s.req s.target).1 := by
  simp [ParseJsonBody, State.log, hbody]

/-- C6, as the code has it: on a request classified as carrying a JSON body whose
body is longer than the read ceiling, `ParseJsonBody` hands the decoder exactly the
first 8388608 bytes of the body, a proper prefix of it, and returns the decoder's
result on those bytes unchanged, for every decoder: its error when decoding the
truncated bytes fails, nil when it succeeds, and the target as the decoder leaves
it. -/
theorem ParseJsonBody_truncates {T E : Type} (c : Collaborators T E) (s : State T E)
    (hbody : withJsonBody s.req = true) (hlong : maxBodyLen < s.req.Body.length) :
    (LimitReader s.req.Body maxBodyLen).length = 8388608 ∧
      LimitReader s.req.Body maxBodyLen <+: s.req.Body ∧
      LimitReader s.req.Body maxBodyLen ≠ s.req.Body ∧
      (ParseJsonBody c s).2 =
        (c.UnmarshalJsonReader (LimitReader s.req.Body maxBodyLen) s.req s.target).2 ∧
      (ParseJsonBody c s).1.target =
        (c.UnmarshalJsonReader (LimitReader s.req.Body maxBodyLen) s.req s.target).1 := by
  have hl := LimitReader_length _ hlong
  obtain ⟨he, ht⟩ := ParseJsonBody_of_json c s hbody
  refine ⟨hl, List.take_prefix _ _, ?_, he, ht⟩
  intro heq
  rw [heq] at hl
  rw [maxBodyLen_eq] at hlong
  omega

theorem oversized_classified : withJsonBody oversizedState.req = true := by decide

theorem oversized_longer : maxBodyLen < oversizedState.req.Body.length := by
  show maxBodyLen < oversizedBody.length
  unfold oversizedBody
  rw [List.length_cons, List.length_cons, List.length_replicate]
  omega

theorem oversized_firstValue :
    firstJsonValue (LimitReader oversizedState.req.Body maxBodyLen) = some [0x7B, 0x7D] := by
  show firstJsonValue (LimitReader oversizedBody maxBodyLen) = some [0x7B, 0x7D]
  rw [LimitReader_oversized]
  exact firstJsonValue_padded_object (maxBodyLen - 2)

theorem withJsonDecoder_reader {T E : Type} (base : Collaborators T E)
    (populate : List Nat → T → T × Option E) (malformed : E) (data : List Nat)
    (r : Request) (v : T) :
    (withJsonDecoder base populate malformed).UnmarshalJsonReader data r v =
      UnmarshalJsonReaderModel populate malformed data v := rfl

theorem UnmarshalJsonReaderModel_of_value {T E : Type}
    (populate : List Nat → T → T × Option E) (malformed : E) (data value : List Nat) (v : T)
    (h : firstJsonValue data = some value) :
    UnmarshalJsonReaderModel populate malformed data v = populate value v := by
  unfold UnmarshalJsonReaderModel
  rw [h]

/-- With the streaming decoder of the specification, the oversized request decodes
without error. -/
theorem oversized_decodes :
    (oversizedCollab.UnmarshalJsonReader (LimitReader oversizedState.req.Body maxBodyLen)
      oversizedState.req oversizedState.target).2 = none := by
  unfold oversizedCollab
  rw [withJsonDecoder_reader,
    UnmarshalJsonReaderModel_of_value _ _ _ _ _ oversized_firstValue]

theorem ParseJsonBody_truncates_witness :
    withJsonBody oversizedState.req = true ∧
      maxBodyLen < oversizedState.req.Body.length ∧
      (LimitReader oversizedState.req.Body maxBodyLen).length = 8388608 ∧
      (ParseJsonBody oversizedCollab oversizedState).2 =
        (oversizedCollab.UnmarshalJsonReader
          (LimitReader oversizedState.req.Body maxBodyLen) oversizedState.req
          oversizedState.target).2 :=
  have h := ParseJsonBody_truncates oversizedCollab oversizedState oversized_classified
    oversized_longer
  ⟨oversized_classified, oversized_longer, h.1, h.2.2.2.1⟩

/-- C6, as stated, fails: for the body made of an empty object and 8388608 spaces,
which is longer than the read ceiling, on a request classified as carrying a JSON
body, the first 8388608 bytes begin with a complete JSON value, the streaming decoder
reads it, and `ParseJsonBody` returns nil. -/
theorem ParseJsonBody_oversized_succeeds :
    withJsonBody oversizedState.req = true ∧
      maxBodyLen < oversizedState.req.Body.length ∧
      (ParseJsonBody oversizedCollab oversizedState).2 = none := by
  refine ⟨oversized_classified, oversized_longer, ?_⟩
  rw [(ParseJsonBody_of_json oversizedCollab oversizedState oversized_classified).1]
  exact oversized_decodes

/-- C7: registering a validator of one concrete type and then one of another concrete
type does not succeed: the first `SetValidator` stores its argument and the second
panics in `atomic.Value.Store`, so the second validator is never registered. -/
theorem SetValidator_inconsistent_type_panics :
    ∃ s1, SetValidator (some sampleValidator) freshState = Except.ok s1 ∧
      SetValidator (some otherValidator) s1 =
        Except.error ⟨"sync/atomic: store of inconsistently typed value into Value"⟩ :=
  ⟨{ freshState with validator := some sampleValidator }, rfl, rfl⟩

/-- Registering two validators of the same concrete type succeeds and leaves the
second one registered: a later `Parse` on a target without self-validation whose
decode stages succeed calls the second validator and returns its result. -/
theorem SetValidator_same_type {T E : Type} [DecidableEq E] (c : Collaborators T E)
    (v1 v2 : Validator T E) (s : State T E)
    (hs : s.validator = none) (ht : v1.dynType = v2.dynType) :
    ∃ s1 s2, SetValidator (some v1) s = Except.ok s1 ∧
      SetValidator (some v2) s1 = Except.ok s2 ∧ s2.validator = some v2 ∧
      ∀ a1 a2 a3 a4 a5, ParsePath c s2 = (a1, none) → ParseQuery c a1 = (a2, none) →
        ParseForm c a2 = (a3, none) → ParseHeaders c a3 = (a4, none) →
        ParseJsonBody c a4 = (a5, none) →
        Parse c none s2 =
          ({ a5.log (Event.validate v2.name) with
              target := (v2.Validate a5.req a5.target).1 },
            (v2.Validate a5.req a5.target).2) := by
  refine ⟨{ s with validator := some v1 }, { s with validator := some v2 }, ?_, ?_, rfl, ?_⟩
  · simp [SetValidator, AtomicValueStore, hs]
  · simp [SetValidator, AtomicValueStore, ht]
  · intro a1 a2 a3 a4 a5 h1 h2 h3 h4 h5
    have hv := (decoded_frame c _ a1 a2 a3 a4 a5 h1 h2 h3 h4 h5).2.1
    rw [Parse_of_decoded c none _ a1 a2 a3 a4 a5 h1 h2 h3 h4 h5]
    simp [hv]

/-- C9, as the code has it: when the five decode stages succeed, the target on which
validation runs is the result of the five stage effects applied in the order path,
query, form, header, JSON body, and `Parse` leaves the target as validation leaves
it, unchanged when no validation runs; and, with the merge engine of the
specification, a field bound to both a query parameter and a JSON member holds the
query value after the query stage and, when the request is classified as carrying a
JSON body and the body read up to the ceiling supplies the member, the JSON value
after the five stages. -/
theorem Parse_json_body_wins :
    (∀ (T E : Type) [DecidableEq E] (c : Collaborators T E)
        (valid : Option (T → T × Option E)) (s s1 s2 s3 s4 s5 : State T E),
        ParsePath c s = (s1, none) → ParseQuery c s1 = (s2, none) →
        ParseForm c s2 = (s3, none) → ParseHeaders c s3 = (s4, none) →
        ParseJsonBody c s4 = (s5, none) →
        s5.target = decodedTarget c s.req s.target ∧
          Parse c valid s =
            (match valid with
              | some validate =>
                ({ s5.log Event.selfValidate with
                    target := (validate (decodedTarget c s.req s.target)).1 },
                  (validate (decodedTarget c s.req s.target)).2)
              | none =>
                match s.validator with
                | some val =>
                  ({ s5.log (Event.validate val.name) with
                      target := (val.Validate (requestAfterForm c s.req)
                        (decodedTarget c s.req s.target)).1 },
                    (val.Validate (requestAfterForm c s.req)
                      (decodedTarget c s.req s.target)).2)
                | none => (s5, none)) ∧
          s5.trace = s.trace ++ stageEvents) ∧
      (∀ (E : Type) [DecidableEq E] (base : Collaborators Shape E)
        (decodeJson : List Nat → Option (GoMap GoString)) (malformed : E)
        (notSet : GoString → E) (s s1 s2 s3 s4 s5 : State Shape E)
        (i : Nat) (f : Field) (qb jb : Binding) (qv jv : GoString) (rest : List GoString)
        (jm : GoMap GoString),
        ParsePath (mergeEngine base decodeJson malformed notSet) s = (s1, none) →
        ParseQuery (mergeEngine base decodeJson malformed notSet) s1 = (s2, none) →
        ParseForm (mergeEngine base decodeJson malformed notSet) s2 = (s3, none) →
        ParseHeaders (mergeEngine base decodeJson malformed notSet) s3 = (s4, none) →
        ParseJsonBody (mergeEngine base decodeJson malformed notSet) s4 = (s5, none) →
        s.target[i]? = some f →
        f.bindings.lookup queryKey = some qb →
        f.bindings.lookup jsonKey = some jb →
        (base.ParseQuery s.req.RawQuery).1.lookup qb.name = some (qv :: rest) →
        withJsonBody s4.req = true →
        decodeJson (LimitReader s4.req.Body maxBodyLen) = some jm →
        jm.lookup jb.name = some jv →
        (s2.target[i]?).map Field.value = some qv ∧
          (s5.target[i]?).map Field.value = some jv) := by
  constructor
  · intro T E _ c valid s s1 s2 s3 s4 s5 h1 h2 h3 h4 h5
    have hp := Parse_of_decoded c valid s s1 s2 s3 s4 s5 h1 h2 h3 h4 h5
    obtain ⟨ht, hv, hr⟩ := decoded_frame c s s1 s2 s3 s4 s5 h1 h2 h3 h4 h5
    obtain ⟨hd, hr4⟩ := decoded_target c s s1 s2 s3 s4 s5 h1 h2 h3 h4 h5
    have hr5 : s5.req = requestAfterForm c s.req := by
      rw [(ParseJsonBody_ok c s4 s5 h5).1, hr4]
    refine ⟨hd, ?_, ht⟩
    rw [hp, hv, ← hd, ← hr5]
  · intro E _ base decodeJson malformed notSet s s1 s2 s3 s4 s5 i f qb jb qv jv rest jm
      h1 h2 h3 h4 h5 hf hq hj hqv hbody hjm hjv
    obtain ⟨r1, u1⟩ := ParsePath_ok _ s s1 h1
    obtain ⟨r2, u2⟩ := ParseQuery_ok _ s1 s2 h2
    obtain ⟨r3, u3⟩ := ParseForm_ok _ s2 s3 h3
    obtain ⟨r4, u4⟩ := ParseHeaders_ok _ s3 s4 h4
    obtain ⟨r5, u5⟩ := ParseJsonBody_ok _ s4 s5 h5
    have b0 : (s.target[i]?).map Field.bindings = some f.bindings := by rw [hf]; rfl
    have b1 : (s1.target[i]?).map Field.bindings = some f.bindings := by
      rw [mergeInto_bindings_of_eq notSet _ _ _ _ _ i u1, b0]
    have b2 : (s2.target[i]?).map Field.bindings = some f.bindings := by
      rw [mergeInto_bindings_of_eq notSet _ _ _ _ _ i u2, b1]
    have b3 : (s3.target[i]?).map Field.bindings = some f.bindings := by
      rw [mergeInto_bindings_of_eq notSet _ _ _ _ _ i u3, b2]
    have b4 : (s4.target[i]?).map Field.bindings = some f.bindings := by
      rw [mergeInto_bindings_of_eq notSet _ _ _ _ _ i u4, b3]
    have hqv1 : (base.ParseQuery s1.req.RawQuery).1.lookup qb.name = some (qv :: rest) := by
      rw [r1]; exact hqv
    have hmem : qb.name ∈ (base.ParseQuery s1.req.RawQuery).1.keys :=
      (GoMap_mem_keys_iff_lookup _ qb.name).mpr ⟨_, hqv1⟩
    have hl := (collectParams_spec (base.ParseQuery s1.req.RawQuery).1).2.2 qb.name hmem
    rw [ValuesGet_of_lookup _ qb.name qv rest hqv1] at hl
    refine ⟨?_, ?_⟩
    · exact mergeInto_value_of_eq notSet queryKey _ s1.target s2.target i f.bindings qb qv
        u2 b1 hq hl
    · have u5j : mergeInto notSet jsonKey jm s4.target = (s5.target, none) := by
        have := u5
        simp only [hbody, if_true, mergeEngine, hjm] at this
        exact this
      exact mergeInto_value_of_eq notSet jsonKey jm s4.target s5.target i f.bindings jb jv
        u5j b4 hj hjv

/-- With the merge engine, a field bound to a required JSON member makes the JSON
stage fail on a request without a body: the empty map is still checked for required
fields. -/
theorem Parse_required_json_without_body :
    (Parse sampleCollab none
        { freshState with req := emptyBodyRequest, target := requiredShape }).2 = some 3 ∧
      (Parse sampleCollab none
        { freshState with req := emptyBodyRequest, target := requiredShape }).1.trace =
        stageEvents := by
  decide

theorem Parse_json_body_wins_witness :
    afterJsonBody.target = decodedTarget sampleCollab sampleState.req sampleState.target ∧
      (afterQuery.target[1]?).map Field.value = some "bob".toList ∧
      (afterJsonBody.target[1]?).map Field.value = some "al".toList := by
  have h1 : ParsePath sampleCollab sampleState = (afterPath, none) := rfl
  have h2 : ParseQuery sampleCollab afterPath = (afterQuery, none) := rfl
  have h3 : ParseForm sampleCollab afterQuery = (afterForm, none) := rfl
  have h4 : ParseHeaders sampleCollab afterForm = (afterHeaders, none) := rfl
  have h5 : ParseJsonBody sampleCollab afterHeaders = (afterJsonBody, none) := rfl
  have hA := Parse_json_body_wins.1 Shape Nat sampleCollab none sampleState afterPath
    afterQuery afterForm afterHeaders afterJsonBody h1 h2 h3 h4 h5
  have hB := Parse_json_body_wins.2 Nat sampleBase sampleDecodeJson 2 (fun _ => 3)
    sampleState afterPath afterQuery afterForm afterHeaders afterJsonBody 1
    { bindings :=
        [(queryKey, { name := "name".toList, optional := false, defaultValue := none }),
          (jsonKey, { name := "name".toList, optional := true, defaultValue := none })],
      value := [] }
    { name := "name".toList, optional := false, defaultValue := none }
    { name := "name".toList, optional := true, defaultValue := none }
    "bob".toList "al".toList [] [("name".toList, "al".toList)]
    h1 h2 h3 h4 h5 rfl (by decide) (by decide) (by decide) (by decide) (by decide)
    (by decide)
  exact ⟨hA.1, hB⟩

/-- C9, as stated, fails.  On the sample request sent chunked (content length `-1`)
the five decode stages succeed, the field `Name` is bound to the query parameter
`name` and to the JSON member `name`, the query string supplies `bob` and the body
supplies `al`, and the field holds `bob` after `Parse`: the body of a request that is
not classified as carrying a JSON body is not read.  And on the sample request a
self-validation that clears the fields leaves a target that is not the result of the
five stage effects. -/
theorem Parse_chunked_keeps_query_value :
    firstFailure (decodeStages sampleCollab) chunkedState = none ∧
      (Parse sampleCollab none chunkedState).2 = none ∧
      (sampleShape[1]?).map (fun f => (f.bindings.lookup queryKey).map Binding.name) =
        some (some "name".toList) ∧
      (sampleShape[1]?).map (fun f => (f.bindings.lookup jsonKey).map Binding.name) =
        some (some "name".toList) ∧
      (sampleCollab.ParseQuery chunkedRequest.RawQuery).1.lookup "name".toList =
        some ["bob".toList] ∧
      sampleDecodeJson (LimitReader chunkedRequest.Body maxBodyLen) =
        some [("name".toList, "al".toList)] ∧
      ((Parse sampleCollab none chunkedState).1.target[1]?).map Field.value =
        some "bob".toList ∧
      (Parse sampleCollab (some clearingValidate) sampleState).2 = none ∧
      (Parse sampleCollab (some clearingValidate) sampleState).1.target ≠
        decodedTarget sampleCollab sampleState.req sampleState.target :=
  ⟨rfl, by decide, by decide, by decide, by decide, by decide, by decide, by decide,
    by decide⟩

end Httpx
